import Mathlib

/-!
Verification of the response-normalization and generation-orchestration
pipeline of the "Voices from History" application.

The embedding models the JavaScript values flowing through the pipeline as a
`JSVal` inductive (JSON values plus `undefined`), and translates the service
module's functions (`withRetry`, `extractJSON`, the normalization stage of
`researchLocationAndDate`, `generateDialogueAudio`) and the avatar stage of
`App.tsx`'s `handleSubmit` into executable Lean definitions.  External
collaborators (the research/speech/image services, `JSON.parse`, the audio
decoder) are passed in as function parameters.  Thrown exceptions are modelled
with `Except`.
-/

namespace VoicesFromHistory

mutual

/-- A JavaScript value: the JSON data model plus `undefined`.  Objects are
association lists in property-insertion order (one binding per key, as
produced by `JSON.parse`); arrays carry their elements (the companion
`JSArr`, keeping the `String()` coercion structurally recursive) together
with any extra named own properties assigned onto them — in the strict-mode
module source, `c.name = ...` on an array entry succeeds, since arrays are
objects.  `proto` is the shared `Object.prototype` object and `fn` one of
its inherited native methods: both can flow into `line.speaker` through
reads of absent keys of the plain-object records below. -/
inductive JSVal where
  | undef : JSVal
  | null : JSVal
  | bool : Bool → JSVal
  | num : Int → JSVal
  | str : String → JSVal
  | arr : JSArr → List (String × JSVal) → JSVal
  | obj : List (String × JSVal) → JSVal
  | proto : JSVal
  | fn : String → JSVal

/-- The elements of a JavaScript array value. -/
inductive JSArr where
  | nil : JSArr
  | cons : JSVal → JSArr → JSArr

end

/-- The elements of an array value, as a `List`. -/
def JSArr.toList : JSArr → List JSVal
  | .nil => []
  | .cons x t => x :: t.toList

/-- Build an array value from a `List` of elements. -/
def JSArr.ofList : List JSVal → JSArr
  | [] => .nil
  | x :: t => .cons x (JSArr.ofList t)

/-- An array value from a list of elements (no extra named properties). -/
def jsArr (xs : List JSVal) : JSVal := .arr (JSArr.ofList xs) []

/-- First-match lookup in an association list keyed by strings. -/
def lookupEntry {β : Type} : List (String × β) → String → Option β
  | [], _ => none
  | (k', v') :: rest, k => if k' = k then some v' else lookupEntry rest k

/-- JavaScript property assignment on an association list: replace the first
binding of the key in place, or append a new binding. -/
def setEntry {β : Type} : List (String × β) → String → β → List (String × β)
  | [], k, v => [(k, v)]
  | (k', v') :: rest, k, v =>
      if k' = k then (k, v) :: rest else (k', v') :: setEntry rest k v

/-- The named own properties of a value, when it is an object or an array
(the two shapes whose properties the pipeline reads and writes).  Property
storage of the shared `Object.prototype` and of native functions is not
tracked: no parsed payload contains them, and the pipeline never reads a
property back off them. -/
def props : JSVal → Option (List (String × JSVal))
  | .obj fs => some fs
  | .arr _ ps => some ps
  | _ => none

/-- Replace the named own properties of an object or array. -/
def withProps : JSVal → List (String × JSVal) → JSVal
  | .obj _, ps => .obj ps
  | .arr xs _, ps => .arr xs ps
  | v, _ => v

/-- JavaScript property read `v[k]` for the static keys the pipeline uses
(`name`, `gender`, `voice`, `speaker`, `characters`, `script`,
`visualDescription`, `avatarUrl` — none of which is an `Object.prototype`
member, so absence reads `undefined`): own property when present, else
`undefined`.  The thrown-TypeError cases for `null`/`undefined` are handled
at the use sites that read or assign through the value. -/
def getField (v : JSVal) (k : String) : JSVal :=
  match props v with
  | some ps => (lookupEntry ps k).getD .undef
  | none => (.undef : JSVal)

/-- JavaScript property write `v[k] = x` (static, non-prototype keys as in
`getField`) on an object or array; other values are returned unchanged. -/
def setJSField (v : JSVal) (k : String) (x : JSVal) : JSVal :=
  match props v with
  | some ps => withProps v (setEntry ps k x)
  | none => v

/-- JavaScript truthiness. -/
def jsTruthy : JSVal → Bool
  | .undef => false
  | .null => false
  | .bool b => b
  | .num n => n != 0
  | .str s => s != ""
  | .arr _ _ => true
  | .obj _ => true
  | .proto => true
  | .fn _ => true

mutual

/-- JavaScript `String(v)` coercion (numbers restricted to integers, which is
all the pipeline compares against).  `String(Object.prototype)` is
`"[object Object]"`; the rendering of a native function is
implementation-defined and given here as V8 prints it. -/
def jsToString : JSVal → String
  | .undef => "undefined"
  | .null => "null"
  | .bool b => if b then "true" else "false"
  | .num n => toString n
  | .str s => s
  | .arr xs _ => jsToStringArr xs
  | .obj _ => "[object Object]"
  | .proto => "[object Object]"
  | .fn name => "function " ++ name ++ "() \x7b [native code] \x7d"

/-- `Array.prototype.toString`: elements joined by commas, with `null` and
`undefined` elements rendered as the empty string. -/
def jsToStringArr : JSArr → String
  | .nil => ""
  | .cons x .nil =>
    (match x with
     | .undef => ""
     | .null => ""
     | y => jsToString y)
  | .cons x (.cons y t) =>
    (match x with
     | .undef => ""
     | .null => ""
     | z => jsToString z) ++ "," ++ jsToStringArr (.cons y t)

end

/-- `needle.isPrefixOf hay` scan used to model `String.prototype.includes`. -/
def containsAt : List Char → List Char → Bool
  | hay, needle =>
    if needle.isPrefixOf hay then true
    else
      match hay with
      | [] => false
      | _ :: t => containsAt t needle

/-- JavaScript `hay.includes(needle)`. -/
def strIncludes (hay needle : String) : Bool :=
  containsAt hay.toList needle.toList

/-- ASCII lower-casing, modelling `String.prototype.toLowerCase` on the
ASCII strings the pipeline compares. -/
def strLower (s : String) : String :=
  String.mk (s.toList.map Char.toLower)

/-! ## Retry Executor (`withRetry`, service module lines 26-43) -/

/-- The shape of a thrown JavaScript error as inspected by `withRetry`:
an optional numeric `status`, an optional numeric `code`, and a message
(`""` standing for an absent/empty, hence falsy, message). -/
structure JSError where
  status : Option Int
  code : Option Int
  message : String
deriving DecidableEq

/-- The quota / rate-limit signature test of `withRetry`. -/
def isQuotaError (e : JSError) : Bool :=
  e.status = some 429 || e.code = some 429 ||
    (e.message != "" &&
      (strIncludes e.message "429" || strIncludes e.message "quota" ||
        strIncludes e.message "RESOURCE_EXHAUSTED"))

/-- `withRetry`: the operation is modelled as a function of the attempt
index.  Returns the final outcome together with the list of backoff delays
actually waited (in milliseconds).  The `isQuotaError && retries > 0` test
of the source is rendered as a match on `retries` and the quota check. -/
def withRetry {α : Type} (op : Nat → Except JSError α) :
    Nat → Nat → Nat → Except JSError α × List Nat
  | 0, _, k =>
    match op k with
    | .ok v => (.ok v, [])
    | .error e => (.error e, [])
  | retries + 1, delay, k =>
    match op k with
    | .ok v => (.ok v, [])
    | .error e =>
      if isQuotaError e then
        let r := withRetry op retries (delay * 2) (k + 1)
        (r.1, delay :: r.2)
      else (.error e, [])

/-- Default retry policy of the service module. -/
def MAX_RETRIES : Nat := 3

/-- Default initial backoff delay of the service module. -/
def INITIAL_DELAY_MS : Nat := 2000

/-! ## JSON Extractor (`extractJSON`, service module lines 45-74) -/

/-- The `x7b` character. -/
def openBrace : Char := Char.ofNat 123

/-- The `x7d` character. -/
def closeBrace : Char := Char.ofNat 125

/-- JavaScript `String.prototype.trim` on a character list. -/
def trimChars (l : List Char) : List Char :=
  ((l.dropWhile Char.isWhitespace).reverse.dropWhile Char.isWhitespace).reverse

/-- Fuel-indexed body of `stripTokenCI` (the fuel bounds the number of scan
steps; the input length always suffices since every step consumes at least
one character). -/
def stripTokenCIFuel (tok : List Char) : Nat → List Char → List Char :=
  fun fuel l =>
  match l with
  | [] => []
  | c :: t =>
    match fuel with
    | f + 1 =>
      if tok ≠ [] ∧ ((c :: t).take tok.length).map Char.toLower = tok then
        stripTokenCIFuel tok f ((c :: t).drop tok.length)
      else c :: stripTokenCIFuel tok f t
    | 0 => c :: t

/-- JavaScript `String.prototype.trim` on strings. -/
def jsTrim (s : String) : String := String.mk (trimChars s.toList)

/-- Global, case-insensitive removal of every occurrence of the (lowercase)
token `tok`, modelling `replace(/tok/gi, '')` scanning left to right. -/
def stripTokenCI (tok : List Char) (l : List Char) : List Char :=
  stripTokenCIFuel tok l.length l

/-- `indexOf`: index of the first character satisfying `p`. -/
def firstIdxOf (p : Char → Bool) : List Char → Option Nat
  | [] => none
  | c :: t => if p c then some 0 else (firstIdxOf p t).map (· + 1)

/-- `lastIndexOf`: index of the last character satisfying `p`. -/
def lastIdxOf (p : Char → Bool) (l : List Char) : Option Nat :=
  (firstIdxOf p l.reverse).map (fun k => l.length - 1 - k)

/-- The preprocessed text `extractJSON` searches for braces: trimmed, then
stripped of markdown fences. -/
def extractTarget (text : String) : List Char :=
  stripTokenCI "```".toList (stripTokenCI "```json".toList (trimChars text.toList))

/-- `extractJSON`, parameterized by the external `JSON.parse` collaborator
(`none` models a parse exception).  An empty (falsy) input returns the value
`null`; a missing brace pair or a doubly-failed parse throws. -/
def extractJSON (parse : String → Option JSVal) (text : String) :
    Except String JSVal :=
  if text = "" then .ok .null
  else
    match firstIdxOf (· = openBrace) (extractTarget text),
        lastIdxOf (· = closeBrace) (extractTarget text) with
    | some firstOpen, some lastClose =>
      if firstOpen < lastClose then
        let sliced := ((extractTarget text).drop firstOpen).take
          (lastClose + 1 - firstOpen)
        match parse (String.mk sliced) with
        | some v => .ok v
        | none =>
          let cleaned := sliced.filter (fun c => !(c.toNat ≤ 31))
          match parse (String.mk cleaned) with
          | some v => .ok v
          | none => .error "Model returned invalid JSON format."
      else .error "No JSON object found in response."
    | _, _ => .error "No JSON object found in response."

/-- A brace pair: some open brace occurring strictly before some close
brace. -/
def hasBracePair : List Char → Bool
  | [] => false
  | c :: t => if c = openBrace then t.contains closeBrace else hasBracePair t

/-- A `JSON.parse` collaborator that always fails. -/
def parseNone : String → Option JSVal := fun _ => none

/-! ## Scenario Normalizer (`researchLocationAndDate` lines 193-318) -/

/-- The fixed male voice set. -/
def maleVoices : List String := ["Puck", "Fenrir", "Charon", "Zephyr"]

/-- The fixed female voice set. -/
def femaleVoices : List String := ["Kore", "Aoede"]

/-- The synthetic default character pushed while fewer than 2 entries
exist. -/
def defaultCharacter (nextId : Nat) : JSVal :=
  let isMale : Bool := nextId % 2 != 0
  .obj [("name", .str ("Speaker " ++ toString nextId)),
        ("gender", .str (if isMale then "male" else "female")),
        ("voice", .str (if isMale then "Puck" else "Kore")),
        ("visualDescription", .str "A person from this historical period."),
        ("bio", .str "A local inhabitant of this era.")]

/-- The `while (data.characters.length < 2)` padding loop, unrolled: an
empty list gets `Speaker 1` (male) then `Speaker 2` (female); a singleton
gets `Speaker 2`; two or more entries are left alone. -/
def padCharacters : List JSVal → List JSVal
  | [] => [defaultCharacter 1, defaultCharacter 2]
  | [c] => [c, defaultCharacter 2]
  | cs => cs

/-- `data.characters` coerced to an array (empty when missing or not an
array). -/
def charactersOf (d : JSVal) : List JSVal :=
  match getField d "characters" with
  | .arr cs _ => cs.toList
  | _ => []

/-- `data.script` coerced to an array (empty when missing or not an
array). -/
def scriptOf (d : JSVal) : List JSVal :=
  match getField d "script" with
  | .arr ls _ => ls.toList
  | _ => []

/-- Read a field expected to hold a string, defaulting to `""`. -/
def strField (c : JSVal) (k : String) : String :=
  match getField c k with
  | .str s => s
  | _ => ""

/-- A character's `name` field as a string. -/
def nameStr (c : JSVal) : String := strField c "name"

/-- A character's `gender` field as a string. -/
def genderStr (c : JSVal) : String := strField c "gender"

/-- A character's `voice` field as a string. -/
def voiceStr (c : JSVal) : String := strField c "voice"

/-- A dialogue line's `speaker` field as a string. -/
def speakerStr (l : JSVal) : String := strField l "speaker"

/-- Whether a gender value is already exactly `'male'` or `'female'`
(the negation of the coercion condition at line 225). -/
def isResolvedGender (g : JSVal) : Bool :=
  match g with
  | .str s => s == "male" || s == "female"
  | _ => false

/-- The per-character sanitation pass (lines 222-228): stringify and trim the
name, coerce invalid genders to `male`.  A `null`/`undefined` entry throws on
the `c.name` read and a primitive entry on the strict-mode `c.name`
assignment, modelled as `Except.error`; an object or array entry completes
(arrays are objects, so the assignments succeed). -/
def sanitizeCharacter (c : JSVal) : Except Unit JSVal :=
  match c with
  | .undef | .null | .bool _ | .num _ | .str _ => .error ()
  | _ =>
    let c1 := setJSField c "name" (.str (jsTrim (jsToString (getField c "name"))))
    .ok (if isResolvedGender (getField c1 "gender") then c1
      else setJSField c1 "gender" (.str "male"))

/-- The candidate voice list of a character:
`char.gender === 'female' ? femaleVoices : maleVoices`. -/
def voiceListOf (char : JSVal) : List String :=
  match getField char "gender" with
  | .str s => if s = "female" then femaleVoices else maleVoices
  | _ => maleVoices

/-- `v !== takenVoice` for a candidate voice name `v`. -/
def voiceNotTaken (takenVoice : JSVal) (v : String) : Bool :=
  match takenVoice with
  | .str t => v != t
  | _ => true

/-- The keep test of `getValidVoice`:
`voiceList.includes(char.voice) && char.voice !== takenVoice`. -/
def keepVoice (voiceList : List String) (takenVoice cv : JSVal) : Bool :=
  match cv with
  | .str s => voiceList.contains s && voiceNotTaken takenVoice s
  | _ => false

/-- `getValidVoice` (lines 240-253).  The `Math.random()` draw is modelled by
an arbitrary natural `r` reduced modulo the candidate-list length. -/
def getValidVoice (char : JSVal) (takenVoice : JSVal) (r : Nat) : JSVal :=
  let voiceList := voiceListOf char
  let cv := getField char "voice"
  if keepVoice voiceList takenVoice cv then cv
  else
    let available := voiceList.filter (voiceNotTaken takenVoice)
    if h : 0 < available.length then
      .str (available.get ⟨r % available.length, Nat.mod_lt _ h⟩)
    else
      match voiceList.get? (r % voiceList.length) with
      | some s => .str s
      | none => (.undef : JSVal)

/-- The sanitized speaker of one line (lines 266-267): a falsy speaker
defaults to `"Unknown"`, then stringify and trim. -/
def rawSpeakerText (l : JSVal) : String :=
  let sp0 := getField l "speaker"
  jsTrim (jsToString (if jsTruthy sp0 then sp0 else .str "Unknown"))

/-- The per-line speaker sanitation of the counting pass (lines 265-269):
write the sanitized speaker back into the line.  A `null`/`undefined` line
throws on the `line.speaker` read and a primitive line on the strict-mode
assignment, modelled as `Except.error`; object and array lines complete. -/
def sanitizeLine (l : JSVal) : Except Unit JSVal :=
  match l with
  | .undef | .null | .bool _ | .num _ | .str _ => .error ()
  | _ => .ok (setJSField l "speaker" (.str (rawSpeakerText l)))

/-- The own method names of `Object.prototype`, which a plain-object record
(`speakerCounts`, `speakerMap`) inherits. -/
def protoMethods : List String :=
  ["constructor", "toString", "toLocaleString", "valueOf", "hasOwnProperty",
   "isPrototypeOf", "propertyIsEnumerable", "__defineGetter__",
   "__defineSetter__", "__lookupGetter__", "__lookupSetter__"]

/-- Whether a dynamic record key collides with an `Object.prototype`
member (the accessor `__proto__` or an inherited method). -/
def isProtoKey (s : String) : Bool :=
  s == "__proto__" || protoMethods.contains s

/-- Dynamic read `record[k]` of a plain-object record: an own binding when
present, else the value inherited from `Object.prototype` — the prototype
object itself for `__proto__`, a native method for the method names, and
`undefined` otherwise. -/
def recGet (m : List (String × JSVal)) (k : String) : JSVal :=
  match lookupEntry m k with
  | some v => v
  | none =>
    if k = "__proto__" then .proto
    else if protoMethods.contains k then .fn k
    else (.undef : JSVal)

/-- Dynamic write `record[k] = v` of a plain-object record: the inherited
`__proto__` setter silently discards the primitive values this pipeline
writes (numbers and strings), so no own binding is ever created under that
key; every other key gets an ordinary own binding (inherited methods are
data properties, so assignment shadows them). -/
def recSet (m : List (String × JSVal)) (k : String) (v : JSVal) :
    List (String × JSVal) :=
  if k = "__proto__" then m else setEntry m k v

/-- `speakerCounts[s] = (speakerCounts[s] || 0) + 1`: a falsy current value
counts from 0; a number increments; a truthy non-number (the inherited
`Object.prototype` member read through a key like `toString`, or a previous
such concatenation) goes through JavaScript `+`, which string-concatenates
after `ToPrimitive`. -/
def bumpCount (m : List (String × JSVal)) (s : String) :
    List (String × JSVal) :=
  recSet m s
    (match recGet m s with
     | .num n => .num (n + 1)
     | .bool b => .num (if b then 2 else 1)
     | .undef => .num 1
     | .null => .num 1
     | .str t => if t = "" then .num 1 else .str (t ++ "1")
     | v => .str (jsToString v ++ "1"))

/-- The speaker-frequency record, bindings in insertion order (a `__proto__`
speaker never creates a binding). -/
def countsList (ss : List String) : List (String × JSVal) :=
  ss.foldl bumpCount []

/-- `ToNumber` of a stored count as used by the sort comparator: the only
non-numeric values ever stored are the garbage string concatenations above,
whose `ToNumber` is `NaN` (`none`). -/
def countNum : JSVal → Option Int
  | .num n => some n
  | _ => none

/-- Parse a string of decimal digits (JavaScript array-index candidate). -/
def strDigitsToNat (s : String) : Option Nat :=
  if s.toList ≠ [] ∧ s.toList.all Char.isDigit then
    some (s.toList.foldl (fun acc c => acc * 10 + (c.toNat - 48)) 0)
  else none

/-- Whether a record key is an array-index-like key (canonical decimal below
2^32 - 1), which JavaScript `Object.keys` orders first, ascending. -/
def isArrayIndexKey (s : String) : Bool :=
  match strDigitsToNat s with
  | some n => toString n = s && n < 4294967295
  | none => false

/-- Ascending insertion by a numeric key. -/
def insertAscBy (key : String → Nat) (x : String) : List String → List String
  | [] => [x]
  | y :: ys => if key x < key y then x :: y :: ys else y :: insertAscBy key x ys

/-- Ascending insertion sort by a numeric key. -/
def sortAscBy (key : String → Nat) (l : List String) : List String :=
  l.foldr (insertAscBy key) []

/-- JavaScript `Object.keys` ordering: array-index-like keys first in
ascending numeric order, then the remaining keys in insertion order. -/
def jsObjectKeys (ps : List (String × JSVal)) : List String :=
  let ks := ps.map Prod.fst
  sortAscBy (fun s => (strDigitsToNat s).getD 0) (ks.filter isArrayIndexKey)
    ++ ks.filter (fun s => !isArrayIndexKey s)

/-- The `sort((a,b) => counts[b] - counts[a])` comparator: numeric counts
subtract; a `NaN` result (a garbage string count on either side) is treated
as `+0` by `SortCompare`, leaving the pair in its original order. -/
def sortCmp (counts : List (String × JSVal)) (a b : String) : Int :=
  match countNum ((lookupEntry counts b).getD .undef),
      countNum ((lookupEntry counts a).getD .undef) with
  | some nb, some na => nb - na
  | _, _ => 0

/-- Stable insertion placing `x` before the first element it need not
follow: the effect of a stable comparator sort on `x :: l`. -/
def insertDescBy (cmp : String → String → Int) (x : String) :
    List String → List String
  | [] => [x]
  | y :: ys => if cmp x y ≤ 0 then x :: y :: ys else y :: insertDescBy cmp x ys

/-- Stable descending sort by count. -/
def sortByCountDesc (cmp : String → String → Int) (l : List String) :
    List String :=
  l.foldr (insertDescBy cmp) []

/-- `scriptSpeakers`: the distinct sanitized speakers in `Object.keys` order,
stably sorted by descending frequency (lines 264-271). -/
def speakerOrder (lines : List JSVal) : List String :=
  let counts := countsList (lines.map speakerStr)
  sortByCountDesc (sortCmp counts) (jsObjectKeys counts)

/-- The fuzzy speaker-to-character match (lines 280-284): exact equality, or
case-insensitive substring containment in either direction. -/
def fuzzyMatch (s cname : String) : Bool :=
  s = cname || strIncludes (strLower cname) (strLower s) ||
    strIncludes (strLower s) (strLower cname)

/-- One step of the fuzzy-matching pass: try character 1, then character 2,
else leave the speaker unmapped (a `__proto__` write is silently lost). -/
def fuzzyStep (n1 n2 : String) (m : List (String × JSVal)) (s : String) :
    List (String × JSVal) :=
  if fuzzyMatch s n1 then recSet m s (.str n1)
  else if fuzzyMatch s n2 then recSet m s (.str n2)
  else m

/-- The fuzzy-matching pass over the ordered distinct speakers
(lines 274-285). -/
def fuzzyPass (speakers : List String) (n1 n2 : String) :
    List (String × JSVal) :=
  speakers.foldl (fuzzyStep n1 n2) []

/-- `Object.values` of the speaker map (own values only). -/
def mapValues (m : List (String × JSVal)) : List JSVal := m.map Prod.snd

/-- Strict string equality against a value, as `includes` compares. -/
def isStrV (n : String) (v : JSVal) : Bool :=
  match v with
  | .str s => s == n
  | _ => false

/-- `Object.values(speakerMap).includes(name)`. -/
def valuesContain (m : List (String × JSVal)) (n : String) : Bool :=
  m.any (fun p => isStrV n p.2)

/-- `!speakerMap[s]`: the dynamic read is falsy — note that a key colliding
with an `Object.prototype` member reads the truthy inherited value when it
has no own binding, so such a speaker never counts as unmapped. -/
def notMapped (m : List (String × JSVal)) (s : String) : Bool :=
  !(jsTruthy (recGet m s))

/-- One `if (!isCharUsed() && unmapped[unmappedIndex])` assignment step of
the unmatched-speaker handling (lines 297-305): when no speaker maps to
`name` yet and the current unmapped entry exists and is truthy, map it to
`name` and advance the index. -/
def assignStep (m : List (String × JSVal)) (unmapped : List String)
    (i : Nat) (name : String) : List (String × JSVal) × Nat :=
  if !(valuesContain m name) then
    match unmapped.get? i with
    | some u => if u != "" then (recSet m u (.str name), i + 1) else (m, i)
    | none => (m, i)
  else (m, i)

/-- The full speaker-map construction (lines 274-309): fuzzy pass, then the
unmatched-speaker handling, then the default-to-character-1 loop. -/
def buildSpeakerMap (speakers : List String) (n1 n2 : String) :
    List (String × JSVal) :=
  let m0 := fuzzyPass speakers n1 n2
  let unmapped := speakers.filter (fun s => notMapped m0 s)
  let step1 := assignStep m0 unmapped 0 n1
  let step2 := assignStep step1.1 unmapped step1.2 n2
  (unmapped.drop step2.2).foldl (fun m u => recSet m u (.str n1)) step2.1

/-- Rewriting one line's speaker through the map (lines 312-318): a truthy
dynamic read wins — for a key colliding with an `Object.prototype` member
this assigns the inherited prototype object or native method itself as the
line's speaker — otherwise character 1's name. -/
def applyMapLine (m : List (String × JSVal)) (n1 : String) (l : JSVal) :
    JSVal :=
  let v := recGet m (speakerStr l)
  if jsTruthy v then setJSField l "speaker" v
  else setJSField l "speaker" (.str n1)

/-- The script-side normalization after per-line sanitation: build the
speaker map from the ordered distinct speakers and rewrite every line. -/
def applyScriptMap (lines : List JSVal) (n1 n2 : String) : List JSVal :=
  let m := buildSpeakerMap (speakerOrder lines) n1 n2
  lines.map (applyMapLine m n1)

/-- `c.name = n` on a character object. -/
def setName (c : JSVal) (n : String) : JSVal := setJSField c "name" (.str n)

/-- The name-disambiguation step (lines 231-235): append ` (1)` / ` (2)`
when the two sanitized names coincide. -/
def renameIfEqual (ca cb : JSVal) : JSVal × JSVal :=
  if nameStr ca = nameStr cb then
    (setName ca (nameStr ca ++ " (1)"), setName cb (nameStr cb ++ " (2)"))
  else (ca, cb)

/-- The voice-resolution step (lines 255-256): character 1's voice is
resolved with no taken voice, character 2's against character 1's final
voice. -/
def assignVoices (ca1 cb1 : JSVal) (r1 r2 : Nat) : JSVal × JSVal :=
  let ca2 := setJSField ca1 "voice" (getValidVoice ca1 .undef r1)
  (ca2, setJSField cb1 "voice" (getValidVoice cb1 (getField ca2 "voice") r2))

/-- The character phase of the normalization stage (lines 195-256):
coercion, padding, truncation, sanitation, name disambiguation, and voice
resolution, yielding the two final character objects. -/
def normalizeChars (data : JSVal) (r1 r2 : Nat) : Except Unit (JSVal × JSVal) :=
  match ((padCharacters (charactersOf data)).take 2).mapM sanitizeCharacter with
  | .error e => .error e
  | .ok [ca, cb] =>
    .ok (assignVoices (renameIfEqual ca cb).1 (renameIfEqual ca cb).2 r1 r2)
  | .ok _ => .error ()

/-- The body of the normalization stage, for an object payload: the
character phase, then script sanitation and speaker rewriting, and the final
writes of the `characters` and `script` fields. -/
def normalizeObjData (data : JSVal) (r1 r2 : Nat) : Except Unit JSVal :=
  match normalizeChars data r1 r2 with
  | .error e => .error e
  | .ok (ca2, cb2) =>
    match (scriptOf data).mapM sanitizeLine with
    | .error e => .error e
    | .ok script1 =>
      let script2 := applyScriptMap script1 (nameStr ca2) (nameStr cb2)
      .ok (setJSField (setJSField data "characters" (jsArr [ca2, cb2]))
            "script" (jsArr script2))

/-- The whole normalization stage of `researchLocationAndDate`
(lines 193-318), a pure function of the extracted payload and the two
`Math.random()` draws used by the voice resolution.  `Except.error ()`
models a thrown TypeError: a `null`/`undefined` payload throws on the first
`data.characters` read and a primitive payload on the strict-mode
`data.characters` assignment, while object and array payloads complete
(arrays are objects); a `null`/`undefined`/primitive entry of the
`characters` or `script` arrays throws inside the corresponding `forEach`
(see `sanitizeCharacter` / `sanitizeLine`). -/
def normalizeData (data : JSVal) (r1 r2 : Nat) : Except Unit JSVal :=
  match data with
  | .undef | .null | .bool _ | .num _ | .str _ => .error ()
  | _ => normalizeObjData data r1 r2

/-- The voice set of a resolved gender string. -/
def genderVoices (g : String) : List String :=
  if g = "female" then femaleVoices else maleVoices

/-- Structural validity of a normalized scenario: exactly two characters,
resolved genders, gender-consistent voices, distinct names, and every script
speaker equal to one of the two character names. -/
def scenarioValid (d : JSVal) : Bool :=
  match charactersOf d with
  | [c1, c2] =>
    (nameStr c1 != nameStr c2) &&
    (genderStr c1 == "male" || genderStr c1 == "female") &&
    (genderStr c2 == "male" || genderStr c2 == "female") &&
    (genderVoices (genderStr c1)).contains (voiceStr c1) &&
    (genderVoices (genderStr c2)).contains (voiceStr c2) &&
    (scriptOf d).all (fun l =>
      speakerStr l == nameStr c1 || speakerStr l == nameStr c2)
  | _ => false

/-! ## Audio Synthesis Orchestrator (`generateDialogueAudio`, lines 342-462) -/

/-- A normalized character as consumed by the audio stage. -/
structure TChar where
  name : String
  voice : String

/-- A normalized dialogue line as consumed by the audio stage. -/
structure TLine where
  speaker : String
  text : String
  translation : String

/-- One part of a speech-service response. -/
structure TTSPart where
  inlineData : Option String

/-- A speech-service response: optional parts list
(`candidates?.[0]?.content?.parts`) and optional finish reason. -/
structure TTSResponse where
  parts : Option (List TTSPart)
  finishReason : Option String

/-- A per-channel voice configuration entry. -/
structure SpeakerVoiceCfg where
  speaker : String
  voiceName : String

/-- The fixed ASCII-safe channel labels. -/
def safeNames : List String := ["Speaker A", "Speaker B"]

/-- `safeNames[index] || "Speaker " + String.fromCharCode(65 + index)`. -/
def safeNameFor (i : Nat) : String :=
  match safeNames.get? i with
  | some s => if s != "" then s else "Speaker " ++ String.mk [Char.ofNat (65 + i)]
  | none => "Speaker " ++ String.mk [Char.ofNat (65 + i)]

/-- The `charToSafeName` map (display name to channel label), later entries
overwriting earlier ones as `Map.set` does. -/
def charVoiceMap (chars : List TChar) : List (String × String) :=
  chars.enum.foldl (fun m p => setEntry m p.2.name (safeNameFor p.1)) []

/-- The `speakerVoiceConfigs` sent to the speech service. -/
def speakerCfgs (chars : List TChar) : List SpeakerVoiceCfg :=
  chars.enum.map (fun p => ⟨safeNameFor p.1, p.2.voice⟩)

/-- Fuel-indexed body of `stripStars` (the input length always suffices as
fuel since every step consumes at least one character). -/
def stripStarsFuel : Nat → List Char → List Char := fun fuel l =>
  match l with
  | [] => []
  | c :: t =>
    match fuel with
    | f + 1 =>
      if c = '*' then
        let pre := t.takeWhile (· ≠ '*')
        if 0 < pre.length ∧ pre.length < t.length then
          stripStarsFuel f (t.drop (pre.length + 1))
        else c :: stripStarsFuel f t
      else c :: stripStarsFuel f t
    | 0 => c :: t

/-- Removal of asterisk-delimited stage directions, modelling
`replace(/\x2a[^\x2a]+\x2a/g, '')` scanning left to right. -/
def stripStars (l : List Char) : List Char := stripStarsFuel l.length l

/-- `textContent.replace(...).trim()` for one line. -/
def cleanLineText (s : String) : String :=
  jsTrim (String.mk (stripStars s.toList))

/-- `render`: the flattened speaker-tagged transcript (lines 364-377). -/
def renderTranscript (chars : List TChar) (lines : List TLine)
    (useTranslation : Bool) : String :=
  let m := charVoiceMap chars
  let sn0 := (safeNames.get? 0).getD ""
  lines.foldl (fun acc line =>
    let safeName :=
      match lookupEntry m line.speaker with
      | some v => if v != "" then v else sn0
      | none => sn0
    let textContent := if useTranslation then line.translation else line.text
    let cleanText := cleanLineText textContent
    if cleanText != "" then acc ++ safeName ++ ": " ++ cleanText ++ "\n"
    else acc) ""

/-- Extraction of the first truthy inline audio payload (lines 404-415). -/
def firstInlineAudio : Option (List TTSPart) → Option String
  | none => none
  | some ps =>
    ps.findSome? (fun p =>
      match p.inlineData with
      | some d => if d != "" then some d else none
      | none => none)

/-- `finishReason || 'UNKNOWN'`. -/
def finishReasonText (fr : Option String) : String :=
  match fr with
  | some s => if s != "" then s else "UNKNOWN"
  | none => "UNKNOWN"

/-- A plain thrown `Error` with a message. -/
def mkError (m : String) : JSError := ⟨none, none, m⟩

/-- One `performGeneration` attempt (lines 364-442): render the transcript,
fail on emptiness, call the speech service through the Retry Executor,
extract the first inline payload, classify missing-payload failures, and
decode through the external decoder collaborator. -/
def performGeneration {α : Type} (chars : List TChar) (lines : List TLine)
    (svc : String → List SpeakerVoiceCfg → Nat → Except JSError TTSResponse)
    (decodeAudio : String → Except JSError α)
    (useTranslation : Bool) : Except JSError α :=
  let dialogueText := renderTranscript chars lines useTranslation
  if jsTrim dialogueText = "" then .error (mkError "Dialogue text is empty.")
  else
    match (withRetry (fun k => svc dialogueText (speakerCfgs chars) k)
        MAX_RETRIES INITIAL_DELAY_MS 0).1 with
    | .error e => .error e
    | .ok resp =>
      match firstInlineAudio resp.parts with
      | some d => decodeAudio d
      | none =>
        if resp.finishReason = some "SAFETY" then
          .error (mkError "Audio generation was blocked by safety filters.")
        else
          .error (mkError ("No audio data returned from the model (Finish Reason: "
            ++ finishReasonText resp.finishReason ++ ")."))

/-- `generateDialogueAudio` (lines 444-461): the native-language attempt,
then on any failure exactly one translated fallback, whose failure message is
wrapped in `AudioGenerationFailed`. -/
def generateDialogueAudio {α : Type} (chars : List TChar) (lines : List TLine)
    (svc : String → List SpeakerVoiceCfg → Nat → Except JSError TTSResponse)
    (decodeAudio : String → Except JSError α) : Except JSError α :=
  match performGeneration chars lines svc decodeAudio false with
  | .ok b => .ok b
  | .error _ =>
    match performGeneration chars lines svc decodeAudio true with
    | .ok b => .ok b
    | .error fe => .error (mkError ("Audio generation failed: " ++ fe.message))

/-! ## Session Coordinator avatar stage (`App.tsx` `handleSubmit`,
lines 62-76) -/

/-- `avatarUrl: url || undefined`. -/
def normalizeAvatarUrl (u : Option String) : JSVal :=
  match u with
  | some s => if s != "" then .str s else .undef
  | none => (.undef : JSVal)

/-- Per-character avatar handling: a truthy `visualDescription` issues one
avatar request (the external `generateCharacterAvatar` collaborator `gen`)
and sets `avatarUrl`; otherwise the character passes through unchanged. -/
def avatarChar (gen : JSVal → JSVal → Option String) (ctx : JSVal)
    (c : JSVal) : JSVal :=
  if jsTruthy (getField c "visualDescription") then
    setJSField c "avatarUrl"
      (normalizeAvatarUrl (gen (getField c "visualDescription") ctx))
  else c

/-- The avatar branch of media generation: skipped entirely when images were
not requested, otherwise an independent per-character map. -/
def avatarStage (generateImages : Bool) (gen : JSVal → JSVal → Option String)
    (ctx : JSVal) (chars : List JSVal) : List JSVal :=
  if !generateImages then chars else chars.map (avatarChar gen ctx)

/-! ## Accessors and concrete instances used by witnesses and
counterexamples -/

/-- The first normalized character's name. -/
def firstCharacterName (d : JSVal) : String :=
  match charactersOf d with
  | c :: _ => nameStr c
  | [] => ""

/-- The second normalized character's name. -/
def secondCharacterName (d : JSVal) : String :=
  match charactersOf d with
  | _ :: c :: _ => nameStr c
  | _ => ""

/-- A payload whose `characters` array holds a `null` entry: the character
sanitation `forEach` throws on it. -/
def exNullCharacter : JSVal := .obj [("characters", jsArr [JSVal.null])]

/-- A payload with a single character whose name is whitespace-only. -/
def exBlankName : JSVal :=
  .obj [("characters", jsArr [JSVal.obj [("name", .str " ")]])]

/-- A payload with two whitespace-only character names (disambiguated by the
normalizer to the non-trim-stable names `" (1)"` and `" (2)"`) and a script
line spoken by the final first-character name. -/
def exTrimUnstable : JSVal :=
  .obj [("characters", jsArr [JSVal.obj [("name", .str " ")],
                              JSVal.obj [("name", .str "  ")]]),
        ("script", jsArr [JSVal.obj [("speaker", .str " (1)"),
                                     ("text", .str "hi")]])]

/-- A well-formed small payload: one named character, one script line spoken
by that character. -/
def exSimple : JSVal :=
  .obj [("characters", jsArr [JSVal.obj [("name", .str "Ana"),
                                         ("gender", .str "female"),
                                         ("voice", .str "Kore")]]),
        ("script", jsArr [JSVal.obj [("speaker", .str "Ana"),
                                     ("text", .str "hola"),
                                     ("translation", .str "hello")]])]

/-- The normalizer's output on `exSimple` (with both random draws 0),
spelled out. -/
def exSimpleOut : JSVal :=
  .obj [("characters", jsArr [
      .obj [("name", .str "Ana"), ("gender", .str "female"),
            ("voice", .str "Kore")],
      .obj [("name", .str "Speaker 2"), ("gender", .str "female"),
            ("voice", .str "Aoede"),
            ("visualDescription", .str "A person from this historical period."),
            ("bio", .str "A local inhabitant of this era.")]]),
    ("script", jsArr [.obj [("speaker", .str "Ana"),
                            ("text", .str "hola"),
                            ("translation", .str "hello")]])]

/-- A script whose two raw speakers match neither of the names
`"Xy"` / `"Zw"`. -/
def exUnmatchedScript : List JSVal :=
  [.obj [("speaker", .str "Bob")], .obj [("speaker", .str "Bob")],
   .obj [("speaker", .str "Eve")]]

/-- A payload with one named character and a script line whose speaker is
`"__proto__"`. -/
def exProtoSpeaker : JSVal :=
  .obj [("characters", jsArr [JSVal.obj [("name", .str "Ana"),
                                         ("gender", .str "female"),
                                         ("voice", .str "Kore")]]),
        ("script", jsArr [JSVal.obj [("speaker", .str "__proto__"),
                                     ("text", .str "hola")]])]

/-- The normalizer's output on `exProtoSpeaker` (with both random draws 0),
spelled out: the line's speaker has become the `Object.prototype` object. -/
def exProtoSpeakerOut : JSVal :=
  .obj [("characters", jsArr [
      .obj [("name", .str "Ana"), ("gender", .str "female"),
            ("voice", .str "Kore")],
      .obj [("name", .str "Speaker 2"), ("gender", .str "female"),
            ("voice", .str "Aoede"),
            ("visualDescription", .str "A person from this historical period."),
            ("bio", .str "A local inhabitant of this era.")]]),
    ("script", jsArr [.obj [("speaker", JSVal.proto),
                            ("text", .str "hola")]])]

/-- A sanitized script with the two distinct raw speakers `"__proto__"` and
`"Bob"`, matching neither of the names `"Xy"` / `"Zw"`. -/
def exProtoScript : List JSVal :=
  [.obj [("speaker", .str "__proto__")], .obj [("speaker", .str "Bob")]]

/-- The normalizer's output on `exTrimUnstable` (with both random draws 0),
spelled out. -/
def exTrimUnstableOut : JSVal :=
  .obj [("characters", jsArr [
      .obj [("name", .str " (1)"), ("gender", .str "male"),
            ("voice", .str "Puck")],
      .obj [("name", .str " (2)"), ("gender", .str "male"),
            ("voice", .str "Fenrir")]]),
    ("script", jsArr [.obj [("speaker", .str " (1)"),
                            ("text", .str "hi")]])]

/-- A quota-pattern error (HTTP status 429). -/
def quotaErr : JSError := ⟨some 429, none, ""⟩

/-- A non-quota error. -/
def plainErr : JSError := ⟨none, none, "boom"⟩

/-- An operation that fails twice with a quota error and then succeeds. -/
def retryOpOk : Nat → Except JSError Nat :=
  fun k => if k < 2 then .error quotaErr else .ok 42

/-- An operation that always fails with a non-quota error. -/
def retryOpBad : Nat → Except JSError Nat :=
  fun _ => .error plainErr

/-- Characters for the audio-stage examples. -/
def exTChars : List TChar := [⟨"Ana", "Kore"⟩, ⟨"Luis", "Puck"⟩]

/-- One-line script for the audio-stage examples. -/
def exTLines : List TLine := [⟨"Ana", "hola", "hello"⟩]

/-- A speech-service response carrying one inline audio payload. -/
def ttsOkResp : TTSResponse := ⟨some [⟨some "QUJD"⟩], none⟩

/-- A speech service that fails on the native-language transcript
(`"Speaker A: hola\n"`) and succeeds on anything else. -/
def svcNativeFails : String → List SpeakerVoiceCfg → Nat →
    Except JSError TTSResponse :=
  fun txt _ _ =>
    if txt = "Speaker A: hola\n" then .error (mkError "tts boom")
    else .ok ttsOkResp

/-- A speech service that always fails. -/
def svcAlwaysFails : String → List SpeakerVoiceCfg → Nat →
    Except JSError TTSResponse :=
  fun _ _ _ => .error (mkError "tts boom")

/-- A decoder collaborator returning a numbered buffer. -/
def decodeToNat : String → Except JSError Nat := fun _ => .ok 7

/-- An avatar generator returning a fixed data URI. -/
def genFixedAvatar : JSVal → JSVal → Option String :=
  fun _ _ => some "data:image/png;base64,AAA"

/-- Two characters for the avatar-stage example: one with a visual
description, one without. -/
def exAvatarChars : List JSVal :=
  [.obj [("name", .str "Ana"), ("visualDescription", .str "a merchant")],
   .obj [("name", .str "Luis")]]

/-- Whether a value carries property storage (an object or an array), so
that strict-mode property reads and assignments on it succeed. -/
def hasProps (v : JSVal) : Bool :=
  match props v with
  | some _ => true
  | none => false

/-- Every provided character entry's stringified, trimmed name is
non-empty. -/
def rawNamesOk (data : JSVal) : Bool :=
  (charactersOf data).all
    (fun c => jsTrim (jsToString (getField c "name")) != "")

/-- Every character name of a normalized scenario is trim-stable and
non-empty. -/
def namesStable (d : JSVal) : Bool :=
  (charactersOf d).all
    (fun c => (jsTrim (nameStr c) == nameStr c) && (nameStr c != ""))

/-- The second character's name does not fuzzy-match the first's (so a
re-run's fuzzy pass cannot re-map the second name onto character 1). -/
def namesNoCrossMatch (d : JSVal) : Bool :=
  match charactersOf d with
  | [c1, c2] => !(fuzzyMatch (nameStr c2) (nameStr c1))
  | _ => true

/-- No sanitized raw script speaker collides with an `Object.prototype`
member. -/
def speakersOk (d : JSVal) : Bool :=
  (scriptOf d).all (fun l => !(isProtoKey (rawSpeakerText l)))

/-- No character name collides with an `Object.prototype` member. -/
def namesNotProto (d : JSVal) : Bool :=
  (charactersOf d).all (fun c => !(isProtoKey (nameStr c)))

/-- Shape of a character after the sanitation pass: a property-bearing value
whose `name` binding is a string and whose `gender` binding is a resolved
gender. -/
def CharSan (c : JSVal) : Prop :=
  ∃ ps, props c = some ps ∧
    lookupEntry ps "name" = some (.str (nameStr c)) ∧
    lookupEntry ps "gender" = some (.str (genderStr c)) ∧
    (genderStr c = "male" ∨ genderStr c = "female")

/-- Shape of a finished character: sanitized, with a voice binding holding a
member of its gender's voice set. -/
def CharFinal (c : JSVal) : Prop :=
  ∃ ps, props c = some ps ∧
    lookupEntry ps "name" = some (.str (nameStr c)) ∧
    lookupEntry ps "gender" = some (.str (genderStr c)) ∧
    lookupEntry ps "voice" = some (.str (voiceStr c)) ∧
    (genderStr c = "male" ∨ genderStr c = "female") ∧
    voiceStr c ∈ genderVoices (genderStr c)

/-! ## Theorems -/

/-! ### Association-list, property and record lemmas -/

theorem lookupEntry_setEntry_self {β : Type} (fs : List (String × β))
    (k : String) (v : β) : lookupEntry (setEntry fs k v) k = some v := by
  induction fs with
  | nil => simp [setEntry, lookupEntry]
  | cons p rest ih =>
    obtain ⟨k', v'⟩ := p
    by_cases h : k' = k <;> simp [setEntry, lookupEntry, h, ih]

theorem lookupEntry_setEntry_ne {β : Type} (fs : List (String × β))
    {k k' : String} (v : β) (h : k' ≠ k) :
    lookupEntry (setEntry fs k v) k' = lookupEntry fs k' := by
  have h' : k ≠ k' := fun hh => h hh.symm
  induction fs with
  | nil => simp [setEntry, lookupEntry, h']
  | cons p rest ih =>
    obtain ⟨k0, v0⟩ := p
    by_cases h0 : k0 = k
    · subst h0
      simp [setEntry, lookupEntry, h']
    · simp [setEntry, lookupEntry, h0, ih]

theorem setEntry_of_lookup {β : Type} {fs : List (String × β)} {k : String}
    {v : β} (h : lookupEntry fs k = some v) : setEntry fs k v = fs := by
  induction fs with
  | nil => simp [lookupEntry] at h
  | cons p rest ih =>
    obtain ⟨k0, v0⟩ := p
    by_cases h0 : k0 = k
    · subst h0
      simp [lookupEntry] at h
      simp [setEntry, h]
    · simp [lookupEntry, h0] at h
      simp [setEntry, h0, ih h]

theorem setEntry_keys {β : Type} (m : List (String × β)) (k : String)
    (v : β) :
    (setEntry m k v).map Prod.fst =
      if k ∈ m.map Prod.fst then m.map Prod.fst
      else m.map Prod.fst ++ [k] := by
  induction m with
  | nil => simp [setEntry]
  | cons p rest ih =>
    obtain ⟨k0, v0⟩ := p
    by_cases hk : k0 = k
    · subst hk
      simp [setEntry, List.mem_cons]
    · have hsk : ¬(k = k0) := fun hh => hk hh.symm
      by_cases hs : k ∈ rest.map Prod.fst
      · simp [setEntry, hk, ih, hs, List.mem_cons, hsk]
      · simp [setEntry, hk, ih, hs, List.mem_cons, hsk]

theorem hasProps_exists {c : JSVal} (h : hasProps c = true) :
    ∃ ps, props c = some ps := by
  unfold hasProps at h
  cases hp : props c with
  | some ps => exact ⟨ps, rfl⟩
  | none => rw [hp] at h; simp at h

theorem props_withProps {v : JSVal} {ps0 : List (String × JSVal)}
    (h : props v = some ps0) (ps : List (String × JSVal)) :
    props (withProps v ps) = some ps := by
  cases v <;> simp [props, withProps] at h ⊢

theorem withProps_self {v : JSVal} {ps : List (String × JSVal)}
    (h : props v = some ps) : withProps v ps = v := by
  cases v with
  | obj fs =>
    simp only [props, Option.some.injEq] at h
    rw [show withProps (JSVal.obj fs) ps = .obj ps from rfl, h]
  | arr xs ps0 =>
    simp only [props, Option.some.injEq] at h
    rw [show withProps (JSVal.arr xs ps0) ps = .arr xs ps from rfl, h]
  | undef => simp [props] at h
  | null => simp [props] at h
  | bool b => simp [props] at h
  | num n => simp [props] at h
  | str s => simp [props] at h
  | proto => simp [props] at h
  | fn n => simp [props] at h

theorem getField_of_props {v : JSVal} {ps : List (String × JSVal)}
    (h : props v = some ps) (k : String) :
    getField v k = (lookupEntry ps k).getD .undef := by
  unfold getField
  rw [h]

theorem setJSField_of_props {v : JSVal} {ps : List (String × JSVal)}
    (h : props v = some ps) (k : String) (x : JSVal) :
    setJSField v k x = withProps v (setEntry ps k x) := by
  unfold setJSField
  rw [h]

theorem setJSField_no_props {v : JSVal} (h : props v = none) (k : String)
    (x : JSVal) : setJSField v k x = v := by
  unfold setJSField
  rw [h]

theorem props_setJSField {v : JSVal} {ps : List (String × JSVal)}
    (h : props v = some ps) (k : String) (x : JSVal) :
    props (setJSField v k x) = some (setEntry ps k x) := by
  rw [setJSField_of_props h]
  exact props_withProps h _

theorem getField_setJSField_self {v : JSVal} {ps : List (String × JSVal)}
    (h : props v = some ps) (k : String) (x : JSVal) :
    getField (setJSField v k x) k = x := by
  rw [getField_of_props (props_setJSField h k x), lookupEntry_setEntry_self]
  rfl

theorem getField_setJSField_ne (v : JSVal) {k k' : String} (x : JSVal)
    (hne : k' ≠ k) :
    getField (setJSField v k x) k' = getField v k' := by
  cases hp : props v with
  | some ps =>
    rw [getField_of_props (props_setJSField hp k x),
      lookupEntry_setEntry_ne _ _ hne, getField_of_props hp]
  | none => rw [setJSField_no_props hp]

theorem setJSField_self_of_lookup {v : JSVal} {ps : List (String × JSVal)}
    {k : String} {x : JSVal} (hp : props v = some ps)
    (h : lookupEntry ps k = some x) : setJSField v k x = v := by
  rw [setJSField_of_props hp, setEntry_of_lookup h, withProps_self hp]

theorem JSArr.toList_ofList (l : List JSVal) : (JSArr.ofList l).toList = l := by
  induction l with
  | nil => rfl
  | cons x t ih => simp [JSArr.ofList, JSArr.toList, ih]

theorem lookupEntry_mem_values {m : List (String × JSVal)} {k : String}
    {v : JSVal} (h : lookupEntry m k = some v) : v ∈ mapValues m := by
  induction m with
  | nil => simp [lookupEntry] at h
  | cons p rest ih =>
    obtain ⟨k0, v0⟩ := p
    by_cases h0 : k0 = k
    · subst h0
      simp [lookupEntry] at h
      simp [mapValues, h]
    · simp [lookupEntry, h0] at h
      simp [mapValues] at ih ⊢
      exact Or.inr (ih h)

theorem mem_values_setEntry {m : List (String × JSVal)} {k : String}
    {v x : JSVal} (h : x ∈ mapValues (setEntry m k v)) :
    x ∈ mapValues m ∨ x = v := by
  induction m with
  | nil => simp [setEntry, mapValues] at h; exact Or.inr h
  | cons p rest ih =>
    obtain ⟨k0, v0⟩ := p
    by_cases h0 : k0 = k
    · subst h0
      simp [setEntry, mapValues] at h ⊢
      rcases h with h | h
      · exact Or.inr h
      · exact Or.inl (Or.inr h)
    · simp [setEntry, h0, mapValues] at h ⊢
      rcases h with h | h
      · exact Or.inl (Or.inl h)
      · rcases ih (by simpa [mapValues] using h) with h2 | h2
        · exact Or.inl (Or.inr (by simpa [mapValues] using h2))
        · exact Or.inr h2

theorem recGet_of_lookup {m : List (String × JSVal)} {k : String} {v : JSVal}
    (h : lookupEntry m k = some v) : recGet m k = v := by
  unfold recGet
  rw [h]

theorem isProtoKey_false {s : String} (h : isProtoKey s = false) :
    s ≠ "__proto__" ∧ protoMethods.contains s = false := by
  unfold isProtoKey at h
  rw [Bool.or_eq_false_iff] at h
  exact ⟨by simpa using h.1, h.2⟩

theorem recGet_none {m : List (String × JSVal)} {k : String}
    (hlk : lookupEntry m k = none) (hp : isProtoKey k = false) :
    recGet m k = .undef := by
  obtain ⟨h1, h2⟩ := isProtoKey_false hp
  unfold recGet
  rw [hlk, if_neg h1, if_neg (fun hc => Bool.false_ne_true (h2 ▸ hc))]

theorem recSet_not_proto {m : List (String × JSVal)} {k : String}
    (v : JSVal) (h : k ≠ "__proto__") : recSet m k v = setEntry m k v := by
  unfold recSet
  rw [if_neg h]

theorem recSet_proto (m : List (String × JSVal)) (v : JSVal) :
    recSet m "__proto__" v = m := by
  unfold recSet
  rw [if_pos rfl]

theorem mem_values_recSet {m : List (String × JSVal)} {k : String}
    {v x : JSVal} (h : x ∈ mapValues (recSet m k v)) :
    x ∈ mapValues m ∨ x = v := by
  unfold recSet at h
  by_cases hk : k = "__proto__"
  · rw [if_pos hk] at h
    exact Or.inl h
  · rw [if_neg hk] at h
    exact mem_values_setEntry h

theorem valuesContain_of_mem {m : List (String × JSVal)} {n : String}
    (h : JSVal.str n ∈ mapValues m) : valuesContain m n = true := by
  unfold valuesContain
  apply List.any_eq_true.mpr
  obtain ⟨p, hp, hps⟩ := List.mem_map.mp h
  exact ⟨p, hp, by rw [hps]; simp [isStrV]⟩

/-- C6: the Retry Executor returns the success result after exactly two
delayed retries (2000ms then 4000ms) when the operation fails twice with a
quota-pattern error and then succeeds, and propagates a non-quota failure
unchanged with zero retries and zero delay. -/
theorem retry_executor_spec :
    (∀ {α : Type} (op : Nat → Except JSError α) (e0 e1 : JSError) (v : α),
      op 0 = .error e0 → isQuotaError e0 = true →
      op 1 = .error e1 → isQuotaError e1 = true →
      op 2 = .ok v →
      withRetry op MAX_RETRIES INITIAL_DELAY_MS 0 = (.ok v, [2000, 4000])) ∧
    (∀ {α : Type} (op : Nat → Except JSError α) (e : JSError),
      op 0 = .error e → isQuotaError e = false →
      withRetry op MAX_RETRIES INITIAL_DELAY_MS 0 = (.error e, [])) := by
  constructor
  · intro α op e0 e1 v h0 hq0 h1 hq1 h2
    simp [withRetry, h0, h1, h2, hq0, hq1, MAX_RETRIES, INITIAL_DELAY_MS]
  · intro α op e h0 hq
    simp [withRetry, h0, hq, MAX_RETRIES, INITIAL_DELAY_MS]

/-- Witness for C6 at concrete operations. -/
theorem retry_executor_spec_witness :
    withRetry retryOpOk MAX_RETRIES INITIAL_DELAY_MS 0 = (.ok 42, [2000, 4000]) ∧
    withRetry retryOpBad MAX_RETRIES INITIAL_DELAY_MS 0 = (.error plainErr, []) :=
  ⟨retry_executor_spec.1 retryOpOk quotaErr quotaErr 42 rfl rfl rfl rfl rfl,
   retry_executor_spec.2 retryOpBad plainErr rfl rfl⟩

/-- C5: when the native-language synthesis attempt fails, exactly one
fallback using the English translations is made; a successful fallback's
decoded buffer is returned without surfacing the first failure, and a failed
fallback surfaces `AudioGenerationFailed` wrapping the fallback's underlying
message. -/
theorem audio_fallback_spec {α : Type} (chars : List TChar) (lines : List TLine)
    (svc : String → List SpeakerVoiceCfg → Nat → Except JSError TTSResponse)
    (decodeAudio : String → Except JSError α) (e1 : JSError)
    (h1 : performGeneration chars lines svc decodeAudio false = .error e1) :
    (∀ b, performGeneration chars lines svc decodeAudio true = .ok b →
      generateDialogueAudio chars lines svc decodeAudio = .ok b) ∧
    (∀ e2, performGeneration chars lines svc decodeAudio true = .error e2 →
      generateDialogueAudio chars lines svc decodeAudio =
        .error (mkError ("Audio generation failed: " ++ e2.message))) := by
  constructor
  · intro b hb
    simp [generateDialogueAudio, h1, hb]
  · intro e2 he
    simp [generateDialogueAudio, h1, he]

/-- Witness for C5: a concrete scenario whose native render fails and whose
translated render succeeds, and one where both fail. -/
theorem audio_fallback_spec_witness :
    generateDialogueAudio exTChars exTLines svcNativeFails decodeToNat = .ok 7 ∧
    generateDialogueAudio exTChars exTLines svcAlwaysFails decodeToNat =
      .error (mkError ("Audio generation failed: " ++ "tts boom")) :=
  ⟨(audio_fallback_spec exTChars exTLines svcNativeFails decodeToNat
      (mkError "tts boom") rfl).1 7 rfl,
   (audio_fallback_spec exTChars exTLines svcAlwaysFails decodeToNat
      (mkError "tts boom") rfl).2 (mkError "tts boom") rfl⟩

/-- C10: with image generation requested, a character with a missing or
empty `visualDescription` passes through the avatar stage unchanged, while a
character with a non-empty description gets exactly its own description (and
the scenario context) submitted to the avatar generator, independently of
the other characters. -/
theorem avatar_stage_spec (gen : JSVal → JSVal → Option String) (ctx : JSVal)
    (chars : List JSVal) (i : Nat) (c : JSVal) (hc : chars.get? i = some c) :
    ((getField c "visualDescription" = .undef ∨
      getField c "visualDescription" = .str "") →
      (avatarStage true gen ctx chars).get? i = some c) ∧
    (∀ s, s ≠ "" → getField c "visualDescription" = .str s →
      (avatarStage true gen ctx chars).get? i =
        some (setJSField c "avatarUrl"
          (normalizeAvatarUrl (gen (.str s) ctx)))) := by
  have hmap : (avatarStage true gen ctx chars).get? i =
      some (avatarChar gen ctx c) := by
    simp only [avatarStage, Bool.not_true, Bool.false_eq_true, if_false]
    rw [List.get?_map, hc]
    rfl
  constructor
  · intro hvd
    rw [hmap]
    rcases hvd with h | h <;> simp [avatarChar, h, jsTruthy]
  · intro s hs hvd
    rw [hmap]
    simp [avatarChar, hvd, jsTruthy, hs]

/-- Witness for C10 at a concrete character list: the description-less
character is unchanged, the described one gets its avatar URL. -/
theorem avatar_stage_spec_witness :
    (avatarStage true genFixedAvatar (.str "ctx") exAvatarChars).get? 1 =
      some (.obj [("name", .str "Luis")]) ∧
    (avatarStage true genFixedAvatar (.str "ctx") exAvatarChars).get? 0 =
      some (setJSField (.obj [("name", .str "Ana"),
          ("visualDescription", .str "a merchant")]) "avatarUrl"
        (normalizeAvatarUrl (genFixedAvatar (.str "a merchant") (.str "ctx")))) :=
  ⟨(avatar_stage_spec genFixedAvatar (.str "ctx") exAvatarChars 1
      (.obj [("name", .str "Luis")]) rfl).1 (Or.inl rfl),
   (avatar_stage_spec genFixedAvatar (.str "ctx") exAvatarChars 0
      (.obj [("name", .str "Ana"), ("visualDescription", .str "a merchant")])
      rfl).2 "a merchant" (by decide) rfl⟩

/-- C9 counterexample: on the empty input text, `extractJSON` returns the
value `null` instead of failing. -/
theorem json_extractor_empty_counterexample :
    extractJSON parseNone "" = .ok JSVal.null := rfl

/-- A brace pair forces a close brace somewhere in the list. -/
theorem hasBracePair_contains : ∀ {l : List Char},
    hasBracePair l = true → closeBrace ∈ l := by
  intro l
  induction l with
  | nil => intro h; simp [hasBracePair] at h
  | cons c t ih =>
    intro h
    simp only [hasBracePair] at h
    by_cases hc : c = openBrace
    · rw [if_pos hc] at h
      have hm : closeBrace ∈ t := by simpa [List.contains] using h
      exact List.mem_cons_of_mem c hm
    · rw [if_neg hc] at h
      exact List.mem_cons_of_mem c (ih h)

/-- Brace-pair existence is monotone under sublists. -/
theorem hasBracePair_sublist : ∀ {l₁ l₂ : List Char}, l₁.Sublist l₂ →
    hasBracePair l₁ = true → hasBracePair l₂ = true := by
  intro l₁ l₂ hs
  induction hs with
  | slnil => exact id
  | cons a hs ih =>
    intro h
    have h2 := ih h
    simp only [hasBracePair]
    split
    · have hm := hasBracePair_contains h2
      simpa [List.contains] using List.elem_eq_true_of_mem hm
    · exact h2
  | @cons₂ m₁ m₂ a hs ih =>
    intro h
    simp only [hasBracePair] at h ⊢
    by_cases hc : a = openBrace
    · rw [if_pos hc] at h ⊢
      have hm : closeBrace ∈ m₁ := by simpa [List.contains] using h
      simpa [List.contains] using List.elem_eq_true_of_mem (hs.subset hm)
    · rw [if_neg hc] at h ⊢
      exact ih h

/-- `firstIdxOf` finds a position carrying a character satisfying `p`. -/
theorem firstIdxOf_spec {p : Char → Bool} : ∀ {l : List Char} {i : Nat},
    firstIdxOf p l = some i → ∃ c, l[i]? = some c ∧ p c = true := by
  intro l
  induction l with
  | nil => intro i h; simp [firstIdxOf] at h
  | cons c t ih =>
    intro i h
    simp only [firstIdxOf] at h
    by_cases hp : p c
    · rw [if_pos hp] at h
      obtain rfl : i = 0 := by simpa using h.symm
      exact ⟨c, by simp, hp⟩
    · rw [if_neg hp] at h
      obtain ⟨j, hj, rfl⟩ := Option.map_eq_some'.mp h
      obtain ⟨c', hg, hpc⟩ := ih hj
      exact ⟨c', by simpa using hg, hpc⟩

/-- `lastIdxOf` finds a position carrying a character satisfying `p`. -/
theorem lastIdxOf_spec {p : Char → Bool} {l : List Char} {j : Nat}
    (h : lastIdxOf p l = some j) : ∃ c, l[j]? = some c ∧ p c = true := by
  unfold lastIdxOf at h
  obtain ⟨k, hk, rfl⟩ := Option.map_eq_some'.mp h
  obtain ⟨c, hg, hpc⟩ := firstIdxOf_spec hk
  have hkl : k < l.length := by
    have := (List.getElem?_eq_some.mp hg).1
    simpa using this
  refine ⟨c, ?_, hpc⟩
  rw [← List.getElem?_reverse (by simpa using hkl)]
  exact hg

/-- An open brace strictly before a close brace yields a brace pair. -/
theorem hasBracePair_of_get : ∀ {l : List Char} {i j : Nat}, i < j →
    l[i]? = some openBrace → l[j]? = some closeBrace →
    hasBracePair l = true := by
  intro l
  induction l with
  | nil => intro i j _ hi _; simp at hi
  | cons c t ih =>
    intro i j hij hi hj
    cases i with
    | zero =>
      cases j with
      | zero => omega
      | succ j' =>
        have hc : c = openBrace := by simpa using hi
        have hm : closeBrace ∈ t :=
          List.getElem?_mem (by simpa using hj)
        simp only [hasBracePair, if_pos hc]
        simpa [List.contains] using List.elem_eq_true_of_mem hm
    | succ i' =>
      cases j with
      | zero => exact absurd hij (Nat.not_lt_zero _)
      | succ j' =>
        have hlt : i' < j' := by omega
        have hrec := ih hlt (by simpa using hi) (by simpa using hj)
        simp only [hasBracePair]
        split
        · have hm : closeBrace ∈ t :=
            List.getElem?_mem (by simpa using hj)
          simpa [List.contains] using List.elem_eq_true_of_mem hm
        · exact hrec

/-- The fuel-indexed fence stripper only deletes characters. -/
theorem stripTokenCIFuel_sublist (tok : List Char) : ∀ (fuel : Nat)
    (l : List Char), (stripTokenCIFuel tok fuel l).Sublist l := by
  intro fuel
  induction fuel with
  | zero =>
    intro l
    cases l <;> simp [stripTokenCIFuel]
  | succ f ih =>
    intro l
    cases l with
    | nil => simp [stripTokenCIFuel]
    | cons c t =>
      simp only [stripTokenCIFuel]
      split
      · exact (ih _).trans (List.drop_sublist _ _)
      · exact (ih t).cons₂ c

/-- Fence stripping only deletes characters. -/
theorem stripTokenCI_sublist (tok l : List Char) :
    (stripTokenCI tok l).Sublist l :=
  stripTokenCIFuel_sublist tok l.length l

/-- Trimming only deletes characters. -/
theorem trimChars_sublist (l : List Char) : (trimChars l).Sublist l := by
  unfold trimChars
  have h1 : (l.dropWhile Char.isWhitespace).Sublist l :=
    (List.dropWhile_suffix _).sublist
  have h2 : (((l.dropWhile Char.isWhitespace).reverse.dropWhile
      Char.isWhitespace)).Sublist (l.dropWhile Char.isWhitespace).reverse :=
    (List.dropWhile_suffix _).sublist
  have h3 := h2.reverse
  rw [List.reverse_reverse] at h3
  exact h3.trans h1

/-- C9 (amended): for every NON-EMPTY input text containing no brace pair,
`extractJSON` fails with the `MalformedResponse` error `"No JSON object
found in response."`; the empty string instead returns the value `null`
(see `json_extractor_empty_counterexample`). -/
theorem json_extractor_no_brace_fails (parse : String → Option JSVal)
    (text : String) (hne : text ≠ "")
    (hnb : hasBracePair text.toList = false) :
    extractJSON parse text = .error "No JSON object found in response." := by
  have hsub : (extractTarget text).Sublist text.toList :=
    ((stripTokenCI_sublist _ _).trans (stripTokenCI_sublist _ _)).trans
      (trimChars_sublist _)
  have hL : hasBracePair (extractTarget text) = false := by
    by_contra hcon
    rw [hasBracePair_sublist hsub (by simpa using hcon)] at hnb
    exact Bool.true_eq_false.mp hnb
  unfold extractJSON
  rw [if_neg hne]
  split
  · rename_i i j hf hl
    have hij : ¬(i < j) := by
      intro hij
      obtain ⟨c1, hg1, hp1⟩ := firstIdxOf_spec hf
      obtain ⟨c2, hg2, hp2⟩ := lastIdxOf_spec hl
      have hc1 : c1 = openBrace := by simpa using hp1
      have hc2 : c2 = closeBrace := by simpa using hp2
      subst hc1; subst hc2
      have hT : hasBracePair (extractTarget text) = true :=
        hasBracePair_of_get hij hg1 hg2
      exact Bool.true_eq_false.mp (hT.symm.trans hL)
    rw [if_neg hij]
  · rfl

/-- Witness for C9 at a concrete brace-free text and parse function. -/
theorem json_extractor_no_brace_fails_witness :
    extractJSON parseNone "no braces here" =
      .error "No JSON object found in response." :=
  json_extractor_no_brace_fails parseNone "no braces here" (by decide)
    (by decide)

/-- C1 counterexample: a payload whose `characters` array contains `null`
makes the normalization stage throw (reading `null.name` /
strict-mode-assigning through a primitive) instead of completing. -/
theorem normalizer_null_entry_counterexample :
    normalizeData exNullCharacter 0 0 = .error () := rfl

/-- C2 counterexample: a payload with a single character whose `name` is the
string `" "` yields a scenario whose first character name is the EMPTY
string, contradicting the claimed non-emptiness. -/
theorem normalizer_blank_name_counterexample :
    (normalizeData exBlankName 0 0).toOption.map firstCharacterName =
      some "" ∧
    (normalizeData exBlankName 0 0).toOption.map secondCharacterName =
      some "Speaker 2" := ⟨rfl, rfl⟩

/-- C8 counterexample: for the payload with two whitespace-only names, the
normalizer disambiguates to the non-trim-stable names `" (1)"`/`" (2)"`, and
re-running normalization on its own output changes the first character's
name to `"(1)"` — the Normalizer is not idempotent there even though every
raw script speaker equals one of the two final character names. -/
theorem normalizer_not_idempotent_counterexample :
    normalizeData exTrimUnstable 0 0 = .ok exTrimUnstableOut ∧
    firstCharacterName exTrimUnstableOut = " (1)" ∧
    (∀ r1 r2, (normalizeData exTrimUnstableOut r1 r2).toOption.map
      firstCharacterName = some "(1)") :=
  ⟨rfl, rfl, fun r1 r2 => rfl⟩

/-! ### Sanitation and voice-resolution lemmas -/

theorem strField_of_lookup {c : JSVal} {ps : List (String × JSVal)}
    {k v : String} (hp : props c = some ps)
    (h : lookupEntry ps k = some (.str v)) : strField c k = v := by
  unfold strField
  rw [getField_of_props hp, h]
  rfl

theorem isResolvedGender_true {g : JSVal} (h : isResolvedGender g = true) :
    ∃ s, g = .str s ∧ (s = "male" ∨ s = "female") := by
  cases g with
  | str s =>
    refine ⟨s, rfl, ?_⟩
    simpa [isResolvedGender] using h
  | undef => simp [isResolvedGender] at h
  | null => simp [isResolvedGender] at h
  | bool b => simp [isResolvedGender] at h
  | num m => simp [isResolvedGender] at h
  | arr xs ps => simp [isResolvedGender] at h
  | obj fs => simp [isResolvedGender] at h
  | proto => simp [isResolvedGender] at h
  | fn n => simp [isResolvedGender] at h

theorem sanitizeCharacter_eq {c : JSVal} {ps : List (String × JSVal)}
    (hp : props c = some ps) :
    sanitizeCharacter c =
      .ok (if isResolvedGender (getField (setJSField c "name"
            (.str (jsTrim (jsToString (getField c "name"))))) "gender") = true
        then setJSField c "name"
            (.str (jsTrim (jsToString (getField c "name"))))
        else setJSField (setJSField c "name"
            (.str (jsTrim (jsToString (getField c "name"))))) "gender"
            (.str "male")) := by
  cases c with
  | obj fs => rfl
  | arr xs ps0 => rfl
  | undef => simp [props] at hp
  | null => simp [props] at hp
  | bool b => simp [props] at hp
  | num n => simp [props] at hp
  | str s => simp [props] at hp
  | proto => simp [props] at hp
  | fn n => simp [props] at hp

theorem sanitizeCharacter_props_ok {c : JSVal} {ps : List (String × JSVal)}
    (hp : props c = some ps) :
    ∃ c', sanitizeCharacter c = .ok c' :=
  ⟨_, sanitizeCharacter_eq hp⟩

theorem sanitizeCharacter_ok {c c' : JSVal} {ps : List (String × JSVal)}
    (hp : props c = some ps) (h : sanitizeCharacter c = .ok c') :
    CharSan c' ∧ nameStr c' = jsTrim (jsToString (getField c "name")) := by
  rw [sanitizeCharacter_eq hp] at h
  injection h with h2
  set n := jsTrim (jsToString (getField c "name")) with hn
  have hp1 : props (setJSField c "name" (.str n)) =
      some (setEntry ps "name" (.str n)) := props_setJSField hp "name" (.str n)
  have hnl : lookupEntry (setEntry ps "name" (.str n)) "name" =
      some (.str n) := lookupEntry_setEntry_self ps "name" (.str n)
  by_cases hk : isResolvedGender (getField (setJSField c "name" (.str n))
      "gender") = true
  · rw [if_pos hk] at h2
    subst h2
    obtain ⟨g, hgs, hgmf⟩ := isResolvedGender_true hk
    have hgl : lookupEntry (setEntry ps "name" (.str n)) "gender" =
        some (.str g) := by
      rw [getField_of_props hp1] at hgs
      cases hgl2 : lookupEntry (setEntry ps "name" (.str n)) "gender" with
      | none => rw [hgl2] at hgs; simp at hgs
      | some v =>
        rw [hgl2] at hgs
        simp at hgs
        rw [hgs]
    have hname : nameStr (setJSField c "name" (.str n)) = n :=
      strField_of_lookup hp1 hnl
    have hgender : genderStr (setJSField c "name" (.str n)) = g :=
      strField_of_lookup hp1 hgl
    refine ⟨⟨_, hp1, ?_, ?_, ?_⟩, hname⟩
    · rw [hname]; exact hnl
    · rw [hgender]; exact hgl
    · rw [hgender]; exact hgmf
  · rw [if_neg hk] at h2
    subst h2
    have hp2 : props (setJSField (setJSField c "name" (.str n)) "gender"
        (.str "male")) =
        some (setEntry (setEntry ps "name" (.str n)) "gender"
          (.str "male")) := props_setJSField hp1 "gender" (.str "male")
    have hnl2 : lookupEntry (setEntry (setEntry ps "name" (.str n)) "gender"
        (.str "male")) "name" = some (.str n) := by
      rw [lookupEntry_setEntry_ne _ _ (by decide)]
      exact hnl
    have hgl2 : lookupEntry (setEntry (setEntry ps "name" (.str n)) "gender"
        (.str "male")) "gender" = some (.str "male") :=
      lookupEntry_setEntry_self _ "gender" _
    have hname : nameStr (setJSField (setJSField c "name" (.str n)) "gender"
        (.str "male")) = n := strField_of_lookup hp2 hnl2
    have hgender : genderStr (setJSField (setJSField c "name" (.str n))
        "gender" (.str "male")) = "male" := strField_of_lookup hp2 hgl2
    refine ⟨⟨_, hp2, ?_, ?_, ?_⟩, hname⟩
    · rw [hname]; exact hnl2
    · rw [hgender]; exact hgl2
    · rw [hgender]; exact Or.inl rfl

theorem voiceListOf_eq (char : JSVal) :
    voiceListOf char = genderVoices (genderStr char) := by
  unfold voiceListOf
  cases hg : getField char "gender" with
  | str s =>
    have h2 : genderStr char = s := by simp [genderStr, strField, hg]
    rw [h2]
    rfl
  | undef => simp [genderStr, strField, hg, genderVoices]
  | null => simp [genderStr, strField, hg, genderVoices]
  | bool b => simp [genderStr, strField, hg, genderVoices]
  | num m => simp [genderStr, strField, hg, genderVoices]
  | arr xs ps => simp [genderStr, strField, hg, genderVoices]
  | obj gs => simp [genderStr, strField, hg, genderVoices]
  | proto => simp [genderStr, strField, hg, genderVoices]
  | fn n => simp [genderStr, strField, hg, genderVoices]

theorem genderVoices_pair (g : String) :
    ∃ a b, a ∈ genderVoices g ∧ b ∈ genderVoices g ∧ a ≠ b := by
  by_cases h : g = "female"
  · exact ⟨"Kore", "Aoede", by simp [genderVoices, h, femaleVoices],
      by simp [genderVoices, h, femaleVoices], by decide⟩
  · exact ⟨"Puck", "Fenrir", by simp [genderVoices, h, maleVoices],
      by simp [genderVoices, h, maleVoices], by decide⟩

theorem voiceNotTaken_true_iff (taken : JSVal) (v : String) :
    voiceNotTaken taken v = true ↔ ∀ t, taken = .str t → v ≠ t := by
  cases taken with
  | str t => simp [voiceNotTaken, bne_iff_ne]
  | undef => simp [voiceNotTaken]
  | null => simp [voiceNotTaken]
  | bool b => simp [voiceNotTaken]
  | num m => simp [voiceNotTaken]
  | arr xs ps => simp [voiceNotTaken]
  | obj fs => simp [voiceNotTaken]
  | proto => simp [voiceNotTaken]
  | fn n => simp [voiceNotTaken]

theorem availFilter_ne_nil (g : String) (taken : JSVal) :
    (genderVoices g).filter (voiceNotTaken taken) ≠ [] := by
  obtain ⟨a, b, ha, hb, hab⟩ := genderVoices_pair g
  by_cases hta : voiceNotTaken taken a = true
  · exact List.ne_nil_of_mem (List.mem_filter.mpr ⟨ha, hta⟩)
  · have : ∃ t, taken = .str t ∧ a = t := by
      by_contra hcon
      push_neg at hcon
      exact hta ((voiceNotTaken_true_iff taken a).mpr
        (fun t ht => hcon t ht))
    obtain ⟨t, ht, rfl⟩ := this
    refine List.ne_nil_of_mem (List.mem_filter.mpr ⟨hb, ?_⟩)
    rw [ht]
    simp only [voiceNotTaken, bne_iff_ne]
    exact fun hh => hab hh.symm

theorem keepVoice_true {vl : List String} {taken cv : JSVal}
    (h : keepVoice vl taken cv = true) :
    ∃ s, cv = .str s ∧ s ∈ vl ∧ voiceNotTaken taken s = true := by
  cases cv with
  | str s =>
    simp only [keepVoice, Bool.and_eq_true] at h
    refine ⟨s, rfl, ?_, h.2⟩
    simpa [List.contains, List.elem_iff] using h.1
  | undef => simp [keepVoice] at h
  | null => simp [keepVoice] at h
  | bool b => simp [keepVoice] at h
  | num m => simp [keepVoice] at h
  | arr xs ps => simp [keepVoice] at h
  | obj fs => simp [keepVoice] at h
  | proto => simp [keepVoice] at h
  | fn n => simp [keepVoice] at h

theorem keepVoice_of (vl : List String) (taken : JSVal) {s : String}
    (hmem : s ∈ vl) (hnt : voiceNotTaken taken s = true) :
    keepVoice vl taken (.str s) = true := by
  simp only [keepVoice, Bool.and_eq_true]
  exact ⟨by simpa [List.contains, List.elem_iff] using hmem, hnt⟩

theorem getValidVoice_spec (char taken : JSVal) (r : Nat) :
    ∃ s, getValidVoice char taken r = .str s ∧
      s ∈ genderVoices (genderStr char) ∧
      ∀ t, taken = .str t → s ≠ t := by
  simp only [getValidVoice]
  by_cases hk : keepVoice (voiceListOf char) taken
      (getField char "voice") = true
  · rw [if_pos hk]
    obtain ⟨s, hcv, hmem, hnt⟩ := keepVoice_true hk
    rw [hcv]
    exact ⟨s, rfl, voiceListOf_eq char ▸ hmem,
      (voiceNotTaken_true_iff taken s).mp hnt⟩
  · rw [if_neg hk]
    have havail : (voiceListOf char).filter (voiceNotTaken taken) ≠ [] := by
      rw [voiceListOf_eq]
      exact availFilter_ne_nil _ taken
    have hlen : 0 < ((voiceListOf char).filter (voiceNotTaken taken)).length :=
      List.length_pos.mpr havail
    rw [dif_pos hlen]
    have hm := List.get_mem ((voiceListOf char).filter (voiceNotTaken taken))
      (r % ((voiceListOf char).filter (voiceNotTaken taken)).length)
      (Nat.mod_lt r hlen)
    have hmf := List.mem_filter.mp hm
    exact ⟨_, rfl, voiceListOf_eq char ▸ hmf.1,
      (voiceNotTaken_true_iff taken _).mp hmf.2⟩

theorem getValidVoice_keep {char taken : JSVal} {s : String} (r : Nat)
    (hcv : getField char "voice" = .str s)
    (hmem : s ∈ genderVoices (genderStr char))
    (hne : ∀ t, taken = .str t → s ≠ t) :
    getValidVoice char taken r = .str s := by
  simp only [getValidVoice, hcv]
  rw [if_pos (keepVoice_of (voiceListOf char) taken
    ((voiceListOf_eq char).symm ▸ hmem)
    ((voiceNotTaken_true_iff taken s).mpr hne))]

/-! ### Generic lemmas about `Except`-valued `mapM` -/

theorem mapM_ok_forall2 {α β : Type} {f : α → Except Unit β} :
    ∀ {ls : List α} {ls' : List β}, ls.mapM f = .ok ls' →
      List.Forall₂ (fun c c' => f c = .ok c') ls ls' := by
  intro ls
  induction ls with
  | nil =>
    intro ls' h
    rw [List.mapM_nil] at h
    have h' : (Except.ok [] : Except Unit (List β)) = .ok ls' := h
    injection h' with h2
    exact h2 ▸ List.Forall₂.nil
  | cons x t ih =>
    intro ls' h
    rw [List.mapM_cons] at h
    cases hfx : f x with
    | error e =>
      rw [hfx] at h
      have h' : (Except.error e : Except Unit (List β)) = .ok ls' := h
      cases h'
    | ok a =>
      rw [hfx] at h
      have h1 : t.mapM f >>= (fun as => pure (a :: as)) = .ok ls' := h
      cases hts : t.mapM f with
      | error e =>
        rw [hts] at h1
        have h2 : (Except.error e : Except Unit (List β)) = .ok ls' := h1
        cases h2
      | ok as =>
        rw [hts] at h1
        have h2 : (Except.ok (a :: as) : Except Unit (List β)) = .ok ls' := h1
        injection h2 with h3
        exact h3 ▸ List.Forall₂.cons hfx (ih hts)

theorem forall2_mapM_ok {α β : Type} {f : α → Except Unit β}
    {ls : List α} {ls' : List β}
    (h : List.Forall₂ (fun c c' => f c = .ok c') ls ls') :
    ls.mapM f = .ok ls' := by
  induction h with
  | nil => rw [List.mapM_nil]; rfl
  | @cons a b l1 l2 hx htail ih =>
    rw [List.mapM_cons, hx, ih]
    rfl

theorem mapM_ok_of_exists {α β : Type} {f : α → Except Unit β} :
    ∀ {ls : List α}, (∀ a ∈ ls, ∃ b, f a = .ok b) →
      ∃ ls', ls.mapM f = .ok ls' := by
  intro ls
  induction ls with
  | nil => intro _; exact ⟨[], by rw [List.mapM_nil]; rfl⟩
  | cons x t ih =>
    intro h
    obtain ⟨b, hb⟩ := h x (List.mem_cons_self x t)
    obtain ⟨bs, hbs⟩ := ih (fun a ha => h a (List.mem_cons_of_mem x ha))
    exact ⟨b :: bs, by rw [List.mapM_cons, hb, hbs]; rfl⟩

theorem forall2_mem_right {α β : Type} {R : α → β → Prop} :
    ∀ {l : List α} {l' : List β}, List.Forall₂ R l l' →
      ∀ b ∈ l', ∃ a ∈ l, R a b := by
  intro l l' h
  induction h with
  | nil => intro b hb; cases hb
  | @cons a b l1 l2 hab htail ih =>
    intro c hc
    rcases List.mem_cons.mp hc with hh | hh
    · exact ⟨a, List.mem_cons_self a l1, hh ▸ hab⟩
    · obtain ⟨a', ha', hr⟩ := ih c hh
      exact ⟨a', List.mem_cons_of_mem a ha', hr⟩

/-! ### Padding, line-sanitation and name lemmas -/

theorem padTake_pair (cs : List JSVal) :
    ∃ x y, (padCharacters cs).take 2 = [x, y] ∧
      (x ∈ cs ∨ x = defaultCharacter 1) ∧
      (y ∈ cs ∨ y = defaultCharacter 2) := by
  match cs with
  | [] => exact ⟨_, _, rfl, Or.inr rfl, Or.inr rfl⟩
  | [c] => exact ⟨c, _, rfl, Or.inl (List.mem_singleton_self c), Or.inr rfl⟩
  | a :: b :: t =>
    exact ⟨a, b, rfl, Or.inl (List.mem_cons_self a _),
      Or.inl (List.mem_cons_of_mem a (List.mem_cons_self b t))⟩

theorem sanitizeLine_eq {l : JSVal} {ps : List (String × JSVal)}
    (hp : props l = some ps) :
    sanitizeLine l = .ok (setJSField l "speaker"
      (.str (rawSpeakerText l))) := by
  cases l with
  | obj fs => rfl
  | arr xs ps0 => rfl
  | undef => simp [props] at hp
  | null => simp [props] at hp
  | bool b => simp [props] at hp
  | num n => simp [props] at hp
  | str s => simp [props] at hp
  | proto => simp [props] at hp
  | fn n => simp [props] at hp

theorem speakerStr_setSpeaker {l : JSVal} {ps : List (String × JSVal)}
    (hp : props l = some ps) (x : String) :
    speakerStr (setJSField l "speaker" (.str x)) = x :=
  strField_of_lookup (props_setJSField hp "speaker" (.str x))
    (lookupEntry_setEntry_self ps "speaker" (.str x))

theorem sanitizeLine_ok {l l' : JSVal} {ps : List (String × JSVal)}
    (hp : props l = some ps) (h : sanitizeLine l = .ok l') :
    ∃ ps', props l' = some ps' ∧
      lookupEntry ps' "speaker" = some (.str (speakerStr l')) ∧
      speakerStr l' = rawSpeakerText l := by
  rw [sanitizeLine_eq hp] at h
  injection h with h2
  subst h2
  have hspk := speakerStr_setSpeaker hp (rawSpeakerText l)
  refine ⟨_, props_setJSField hp "speaker" (.str (rawSpeakerText l)), ?_,
    hspk⟩
  rw [hspk]
  exact lookupEntry_setEntry_self ps "speaker" (.str (rawSpeakerText l))

theorem append_suffix_ne (s : String) : s ++ " (1)" ≠ s ++ " (2)" := by
  intro h
  have hd := congrArg String.data h
  rw [String.data_append, String.data_append] at hd
  have h2 := List.append_cancel_left hd
  exact absurd h2 (by decide)

theorem append_ne_empty_right {t : String} (s : String) (ht : t ≠ "") :
    s ++ t ≠ "" := by
  intro h
  apply ht
  have hd := congrArg String.data h
  rw [String.data_append] at hd
  have h2 : t.data = [] := (List.append_eq_nil.mp hd).2
  cases t with
  | mk l =>
    have h3 : l = [] := h2
    subst h3
    rfl

/-! ### Character-shape transport lemmas -/

theorem CharSan_setName {c : JSVal} (hc : CharSan c) (nm : String) :
    CharSan (setName c nm) ∧ nameStr (setName c nm) = nm ∧
      genderStr (setName c nm) = genderStr c := by
  obtain ⟨ps, hp, hnl, hgl, hgmf⟩ := hc
  have hp2 : props (setName c nm) = some (setEntry ps "name" (.str nm)) :=
    props_setJSField hp "name" (.str nm)
  have hn2 : lookupEntry (setEntry ps "name" (.str nm)) "name" =
      some (.str nm) := lookupEntry_setEntry_self ps "name" (.str nm)
  have hg2 : lookupEntry (setEntry ps "name" (.str nm)) "gender" =
      lookupEntry ps "gender" := lookupEntry_setEntry_ne ps (.str nm)
        (by decide)
  have hname : nameStr (setName c nm) = nm := strField_of_lookup hp2 hn2
  have hgender : genderStr (setName c nm) = genderStr c :=
    strField_of_lookup hp2 (hg2.trans hgl)
  refine ⟨⟨_, hp2, ?_, ?_, ?_⟩, hname, hgender⟩
  · rw [hname]; exact hn2
  · rw [hgender]; exact hg2.trans hgl
  · rw [hgender]; exact hgmf

theorem CharFinal_setVoice {c : JSVal} (hc : CharSan c) {v : String}
    (hv : v ∈ genderVoices (genderStr c)) :
    CharFinal (setJSField c "voice" (.str v)) ∧
      nameStr (setJSField c "voice" (.str v)) = nameStr c ∧
      genderStr (setJSField c "voice" (.str v)) = genderStr c ∧
      voiceStr (setJSField c "voice" (.str v)) = v ∧
      getField (setJSField c "voice" (.str v)) "voice" = .str v := by
  obtain ⟨ps, hp, hnl, hgl, hgmf⟩ := hc
  have hp2 : props (setJSField c "voice" (.str v)) =
      some (setEntry ps "voice" (.str v)) := props_setJSField hp "voice" _
  have hvl : lookupEntry (setEntry ps "voice" (.str v)) "voice" =
      some (.str v) := lookupEntry_setEntry_self ps "voice" (.str v)
  have hn2 : lookupEntry (setEntry ps "voice" (.str v)) "name" =
      lookupEntry ps "name" := lookupEntry_setEntry_ne ps (.str v) (by decide)
  have hg2 : lookupEntry (setEntry ps "voice" (.str v)) "gender" =
      lookupEntry ps "gender" := lookupEntry_setEntry_ne ps (.str v)
        (by decide)
  have hname : nameStr (setJSField c "voice" (.str v)) = nameStr c :=
    strField_of_lookup hp2 (hn2.trans hnl)
  have hgender : genderStr (setJSField c "voice" (.str v)) = genderStr c :=
    strField_of_lookup hp2 (hg2.trans hgl)
  have hvoice : voiceStr (setJSField c "voice" (.str v)) = v :=
    strField_of_lookup hp2 hvl
  refine ⟨⟨_, hp2, ?_, ?_, ?_, ?_, ?_⟩, hname, hgender, hvoice, ?_⟩
  · rw [hname]; exact hn2.trans hnl
  · rw [hgender]; exact hg2.trans hgl
  · rw [hvoice]; exact hvl
  · rw [hgender]; exact hgmf
  · rw [hvoice, hgender]; exact hv
  · rw [getField_of_props hp2, hvl]
    rfl

/-! ### The character phase of the normalizer -/

theorem renameIfEqual_spec {ca cb : JSVal} (hca : CharSan ca)
    (hcb : CharSan cb) :
    CharSan (renameIfEqual ca cb).1 ∧ CharSan (renameIfEqual ca cb).2 ∧
      nameStr (renameIfEqual ca cb).1 ≠ nameStr (renameIfEqual ca cb).2 ∧
      (nameStr (renameIfEqual ca cb).1 = nameStr ca ∨
        nameStr (renameIfEqual ca cb).1 = nameStr ca ++ " (1)") ∧
      (nameStr (renameIfEqual ca cb).2 = nameStr cb ∨
        nameStr (renameIfEqual ca cb).2 = nameStr cb ++ " (2)") := by
  by_cases hnm : nameStr ca = nameStr cb
  · simp only [renameIfEqual, if_pos hnm]
    obtain ⟨hA, hAn, hAg⟩ := CharSan_setName hca (nameStr ca ++ " (1)")
    obtain ⟨hB, hBn, hBg⟩ := CharSan_setName hcb (nameStr cb ++ " (2)")
    refine ⟨hA, hB, ?_, Or.inr hAn, Or.inr hBn⟩
    rw [hAn, hBn, hnm]
    exact append_suffix_ne (nameStr cb)
  · simp only [renameIfEqual, if_neg hnm]
    exact ⟨hca, hcb, hnm, by simp, by simp⟩

theorem assignVoices_spec {ca1 cb1 : JSVal} (r1 r2 : Nat)
    (hca : CharSan ca1) (hcb : CharSan cb1) :
    CharFinal (assignVoices ca1 cb1 r1 r2).1 ∧
      CharFinal (assignVoices ca1 cb1 r1 r2).2 ∧
      nameStr (assignVoices ca1 cb1 r1 r2).1 = nameStr ca1 ∧
      nameStr (assignVoices ca1 cb1 r1 r2).2 = nameStr cb1 ∧
      voiceStr (assignVoices ca1 cb1 r1 r2).1 ≠
        voiceStr (assignVoices ca1 cb1 r1 r2).2 := by
  obtain ⟨v1, hv1eq, hv1mem, hv1ne⟩ := getValidVoice_spec ca1 .undef r1
  simp only [assignVoices, hv1eq]
  obtain ⟨hF1, hn1, hg1, hvs1, hgf1⟩ := CharFinal_setVoice hca hv1mem
  rw [hgf1]
  obtain ⟨v2, hv2eq, hv2mem, hv2ne⟩ := getValidVoice_spec cb1 (.str v1) r2
  rw [hv2eq]
  obtain ⟨hF2, hn2, hg2, hvs2, hgf2⟩ := CharFinal_setVoice hcb hv2mem
  refine ⟨hF1, hF2, hn1, hn2, ?_⟩
  rw [hvs1, hvs2]
  exact fun hh => hv2ne v1 rfl hh.symm

theorem normalizeChars_eq {data x y cx cy : JSVal} (r1 r2 : Nat)
    (htake : (padCharacters (charactersOf data)).take 2 = [x, y])
    (hx : sanitizeCharacter x = .ok cx) (hy : sanitizeCharacter y = .ok cy) :
    normalizeChars data r1 r2 =
      .ok (assignVoices (renameIfEqual cx cy).1 (renameIfEqual cx cy).2
        r1 r2) := by
  have hmap : [x, y].mapM sanitizeCharacter = .ok [cx, cy] := by
    rw [List.mapM_cons, hx, List.mapM_cons, hy, List.mapM_nil]; rfl
  unfold normalizeChars
  rw [htake, hmap]

theorem normalizeChars_ok {data : JSVal} {r1 r2 : Nat} {ca2 cb2 : JSVal}
    (hch : ∀ c ∈ (padCharacters (charactersOf data)).take 2,
      hasProps c = true)
    (h : normalizeChars data r1 r2 = .ok (ca2, cb2)) :
    ∃ x y, (padCharacters (charactersOf data)).take 2 = [x, y] ∧
      CharFinal ca2 ∧ CharFinal cb2 ∧
      nameStr ca2 ≠ nameStr cb2 ∧ voiceStr ca2 ≠ voiceStr cb2 ∧
      (nameStr ca2 = jsTrim (jsToString (getField x "name")) ∨
        nameStr ca2 = jsTrim (jsToString (getField x "name")) ++ " (1)") ∧
      (nameStr cb2 = jsTrim (jsToString (getField y "name")) ∨
        nameStr cb2 = jsTrim (jsToString (getField y "name")) ++ " (2)") := by
  unfold normalizeChars at h
  cases hm : ((padCharacters (charactersOf data)).take 2).mapM
      sanitizeCharacter with
  | error e =>
    rw [hm] at h
    have h' : (Except.error e : Except Unit (JSVal × JSVal)) =
        .ok (ca2, cb2) := h
    cases h'
  | ok chars3 =>
    rw [hm] at h
    cases chars3 with
    | nil =>
      have h' : (Except.error () : Except Unit (JSVal × JSVal)) =
          .ok (ca2, cb2) := h
      cases h'
    | cons ca t =>
      cases t with
      | nil =>
        have h' : (Except.error () : Except Unit (JSVal × JSVal)) =
            .ok (ca2, cb2) := h
        cases h'
      | cons cb t2 =>
        cases t2 with
        | cons c3 t3 =>
          have h' : (Except.error () : Except Unit (JSVal × JSVal)) =
              .ok (ca2, cb2) := h
          cases h'
        | nil =>
          have h' : Except.ok (assignVoices (renameIfEqual ca cb).1
              (renameIfEqual ca cb).2 r1 r2) =
              (Except.ok (ca2, cb2) : Except Unit (JSVal × JSVal)) := h
          injection h' with h2
          have hf := mapM_ok_forall2 hm
          obtain ⟨x, l2, hxR, hf2, htk⟩ := List.forall₂_cons_right_iff.mp hf
          obtain ⟨y, l3, hyR, hf3, hl2⟩ := List.forall₂_cons_right_iff.mp hf2
          have hl3 : l3 = [] := by cases hf3; rfl
          subst hl3
          subst hl2
          have hpx : ∃ psx, props x = some psx :=
            hasProps_exists (hch x (by
              rw [htk]
              exact List.mem_cons_self _ _))
          have hpy : ∃ psy, props y = some psy :=
            hasProps_exists (hch y (by
              rw [htk]
              exact List.mem_cons_of_mem _ (List.mem_cons_self _ _)))
          obtain ⟨psx, hpsx⟩ := hpx
          obtain ⟨psy, hpsy⟩ := hpy
          obtain ⟨hsanA, hnameA⟩ := sanitizeCharacter_ok hpsx hxR
          obtain ⟨hsanB, hnameB⟩ := sanitizeCharacter_ok hpsy hyR
          obtain ⟨hA, hB, hABne, hAn, hBn⟩ := renameIfEqual_spec hsanA hsanB
          obtain ⟨hF1, hF2, hn1, hn2, hvne⟩ := assignVoices_spec r1 r2 hA hB
          have hc1 : (assignVoices (renameIfEqual ca cb).1
              (renameIfEqual ca cb).2 r1 r2).1 = ca2 := by rw [h2]
          have hc2 : (assignVoices (renameIfEqual ca cb).1
              (renameIfEqual ca cb).2 r1 r2).2 = cb2 := by rw [h2]
          rw [hc1] at hF1 hn1
          rw [hc2] at hF2 hn2
          rw [hc1, hc2] at hvne
          refine ⟨x, y, htk, hF1, hF2, ?_, hvne, ?_, ?_⟩
          · rw [hn1, hn2]
            exact hABne
          · rcases hAn with hh | hh
            · exact Or.inl (hn1.trans (hh.trans hnameA))
            · refine Or.inr (hn1.trans (hh.trans ?_))
              rw [hnameA]
          · rcases hBn with hh | hh
            · exact Or.inl (hn2.trans (hh.trans hnameB))
            · refine Or.inr (hn2.trans (hh.trans ?_))
              rw [hnameB]

theorem normalizeChars_total (data : JSVal) (r1 r2 : Nat)
    (hch : ∀ c ∈ (padCharacters (charactersOf data)).take 2,
      hasProps c = true) :
    ∃ ca cb, normalizeChars data r1 r2 = .ok (ca, cb) := by
  obtain ⟨x, y, htake, hxm, hym⟩ := padTake_pair (charactersOf data)
  have hxp : ∃ psx, props x = some psx :=
    hasProps_exists (hch x (by
      rw [htake]
      exact List.mem_cons_self _ _))
  have hyp' : ∃ psy, props y = some psy :=
    hasProps_exists (hch y (by
      rw [htake]
      exact List.mem_cons_of_mem _ (List.mem_cons_self _ _)))
  obtain ⟨psx, hpsx⟩ := hxp
  obtain ⟨psy, hpsy⟩ := hyp'
  obtain ⟨cx, hcx⟩ := sanitizeCharacter_props_ok hpsx
  obtain ⟨cy, hcy⟩ := sanitizeCharacter_props_ok hpsy
  exact ⟨_, _, normalizeChars_eq r1 r2 htake hcx hcy⟩

/-! ### Decomposition of the normalization stage -/

theorem normalizeData_eq_obj {data : JSVal} {ps : List (String × JSVal)}
    (hp : props data = some ps) (r1 r2 : Nat) :
    normalizeData data r1 r2 = normalizeObjData data r1 r2 := by
  cases data <;> first | rfl | simp [props] at hp

theorem charactersOf_build {data : JSVal} {ps : List (String × JSVal)}
    (hp : props data = some ps) (cs ls : List JSVal) :
    charactersOf (setJSField (setJSField data "characters" (jsArr cs))
      "script" (jsArr ls)) = cs := by
  unfold charactersOf
  rw [getField_setJSField_ne _ _ (by decide), getField_setJSField_self hp]
  simp [jsArr, JSArr.toList_ofList]

theorem scriptOf_build {data : JSVal} {ps : List (String × JSVal)}
    (hp : props data = some ps) (cs ls : List JSVal) :
    scriptOf (setJSField (setJSField data "characters" (jsArr cs))
      "script" (jsArr ls)) = ls := by
  unfold scriptOf
  rw [getField_setJSField_self (props_setJSField hp _ _)]
  simp [jsArr, JSArr.toList_ofList]

theorem normalizeData_ok {data d' : JSVal} {ps : List (String × JSVal)}
    {r1 r2 : Nat} (hp : props data = some ps)
    (h : normalizeData data r1 r2 = .ok d') :
    ∃ ca cb script1,
      normalizeChars data r1 r2 = .ok (ca, cb) ∧
      (scriptOf data).mapM sanitizeLine = .ok script1 ∧
      d' = setJSField (setJSField data "characters" (jsArr [ca, cb]))
        "script" (jsArr (applyScriptMap script1 (nameStr ca) (nameStr cb))) ∧
      charactersOf d' = [ca, cb] ∧
      scriptOf d' = applyScriptMap script1 (nameStr ca) (nameStr cb) := by
  rw [normalizeData_eq_obj hp] at h
  unfold normalizeObjData at h
  cases hnc : normalizeChars data r1 r2 with
  | error e =>
    rw [hnc] at h
    have h' : (Except.error e : Except Unit JSVal) = .ok d' := h
    cases h'
  | ok p =>
    obtain ⟨ca, cb⟩ := p
    rw [hnc] at h
    cases hsm : (scriptOf data).mapM sanitizeLine with
    | error e =>
      rw [hsm] at h
      have h' : (Except.error e : Except Unit JSVal) = .ok d' := h
      cases h'
    | ok script1 =>
      rw [hsm] at h
      have h' : Except.ok (setJSField (setJSField data "characters"
          (jsArr [ca, cb])) "script"
          (jsArr (applyScriptMap script1 (nameStr ca) (nameStr cb)))) =
          (Except.ok d' : Except Unit JSVal) := h
      injection h' with h2
      refine ⟨ca, cb, script1, rfl, rfl, h2.symm, ?_, ?_⟩
      · rw [← h2]
        exact charactersOf_build hp [ca, cb] _
      · rw [← h2]
        exact scriptOf_build hp [ca, cb] _

theorem normalizeData_build {data : JSVal} {ps : List (String × JSVal)}
    (hp : props data = some ps) (r1 r2 : Nat) {ca cb : JSVal}
    {script1 : List JSVal}
    (hnc : normalizeChars data r1 r2 = .ok (ca, cb))
    (hsm : (scriptOf data).mapM sanitizeLine = .ok script1) :
    normalizeData data r1 r2 =
      .ok (setJSField (setJSField data "characters" (jsArr [ca, cb]))
        "script" (jsArr (applyScriptMap script1 (nameStr ca)
          (nameStr cb)))) := by
  rw [normalizeData_eq_obj hp]
  unfold normalizeObjData
  rw [hnc, hsm]

/-! ### Values of the speaker map -/

theorem mem_values_fuzzyStep {n1 n2 : String} {m : List (String × JSVal)}
    {s : String} {x : JSVal} (h : x ∈ mapValues (fuzzyStep n1 n2 m s)) :
    x ∈ mapValues m ∨ x = JSVal.str n1 ∨ x = JSVal.str n2 := by
  unfold fuzzyStep at h
  by_cases h1 : fuzzyMatch s n1 = true
  · rw [if_pos h1] at h
    rcases mem_values_recSet h with hh | hh
    · exact Or.inl hh
    · exact Or.inr (Or.inl hh)
  · rw [if_neg h1] at h
    by_cases h2 : fuzzyMatch s n2 = true
    · rw [if_pos h2] at h
      rcases mem_values_recSet h with hh | hh
      · exact Or.inl hh
      · exact Or.inr (Or.inr hh)
    · rw [if_neg h2] at h
      exact Or.inl h

theorem values_fuzzy_foldl {n1 n2 : String} :
    ∀ (sp : List String) (m : List (String × JSVal)),
      (∀ x ∈ mapValues m, x = JSVal.str n1 ∨ x = JSVal.str n2) →
      ∀ x ∈ mapValues (sp.foldl (fuzzyStep n1 n2) m),
        x = JSVal.str n1 ∨ x = JSVal.str n2 := by
  intro sp
  induction sp with
  | nil => intro m hm; simpa using hm
  | cons s t ih =>
    intro m hm x hx
    rw [List.foldl_cons] at hx
    refine ih (fuzzyStep n1 n2 m s) ?_ x hx
    intro y hy
    rcases mem_values_fuzzyStep hy with hh | hh
    · exact hm y hh
    · exact hh

theorem assignStep_values {m : List (String × JSVal)}
    {unmapped : List String} {i : Nat} {name : String} {P : JSVal → Prop}
    (hm : ∀ x ∈ mapValues m, P x) (hname : P (.str name)) :
    ∀ x ∈ mapValues (assignStep m unmapped i name).1, P x := by
  intro x hx
  unfold assignStep at hx
  by_cases hc : (!(valuesContain m name)) = true
  · rw [if_pos hc] at hx
    cases hg : unmapped.get? i with
    | some u =>
      rw [hg] at hx
      have hx0 : x ∈ mapValues (if (u != "") = true
          then (recSet m u (.str name), i + 1) else (m, i)).1 := hx
      by_cases hu : (u != "") = true
      · rw [if_pos hu] at hx0
        have hx' : x ∈ mapValues (recSet m u (.str name)) := hx0
        rcases mem_values_recSet hx' with hh | hh
        · exact hm x hh
        · exact hh ▸ hname
      · rw [if_neg hu] at hx0
        exact hm x hx0
    | none =>
      rw [hg] at hx
      exact hm x hx
  · rw [if_neg hc] at hx
    exact hm x hx

theorem values_drop_foldl {n1 : String} {P : JSVal → Prop} :
    ∀ (us : List String) (m : List (String × JSVal)),
      (∀ x ∈ mapValues m, P x) → P (.str n1) →
      ∀ x ∈ mapValues (us.foldl (fun m u => recSet m u (.str n1)) m),
        P x := by
  intro us
  induction us with
  | nil => intro m hm _; simpa using hm
  | cons u t ih =>
    intro m hm hn x hx
    rw [List.foldl_cons] at hx
    refine ih (recSet m u (.str n1)) ?_ hn x hx
    intro y hy
    rcases mem_values_recSet hy with hh | hh
    · exact hm y hh
    · exact hh ▸ hn

theorem buildSpeakerMap_values (speakers : List String) (n1 n2 : String) :
    ∀ x ∈ mapValues (buildSpeakerMap speakers n1 n2),
      x = JSVal.str n1 ∨ x = JSVal.str n2 := by
  intro x hx
  have h0 : ∀ y ∈ mapValues (fuzzyPass speakers n1 n2),
      y = JSVal.str n1 ∨ y = JSVal.str n2 := by
    intro y hy
    exact values_fuzzy_foldl speakers [] (by simp [mapValues]) y hy
  have h1 : ∀ y ∈ mapValues (assignStep (fuzzyPass speakers n1 n2)
      (speakers.filter (fun s => notMapped (fuzzyPass speakers n1 n2) s))
      0 n1).1, y = JSVal.str n1 ∨ y = JSVal.str n2 :=
    assignStep_values h0 (Or.inl rfl)
  have h2 : ∀ y ∈ mapValues (assignStep (assignStep (fuzzyPass speakers n1 n2)
      (speakers.filter (fun s => notMapped (fuzzyPass speakers n1 n2) s))
      0 n1).1
      (speakers.filter (fun s => notMapped (fuzzyPass speakers n1 n2) s))
      (assignStep (fuzzyPass speakers n1 n2)
        (speakers.filter (fun s => notMapped (fuzzyPass speakers n1 n2) s))
        0 n1).2 n2).1, y = JSVal.str n1 ∨ y = JSVal.str n2 :=
    assignStep_values h1 (Or.inr rfl)
  exact values_drop_foldl _ _ h2 (Or.inl rfl) x hx

theorem applyMapLine_mem {m : List (String × JSVal)} {n1 n2 : String}
    (hv : ∀ x ∈ mapValues m, x = JSVal.str n1 ∨ x = JSVal.str n2)
    {l : JSVal} {ps : List (String × JSVal)} (hp : props l = some ps)
    (hpk : isProtoKey (speakerStr l) = false) :
    speakerStr (applyMapLine m n1 l) = n1 ∨
      speakerStr (applyMapLine m n1 l) = n2 := by
  simp only [applyMapLine]
  cases hlk : lookupEntry m (speakerStr l) with
  | none =>
    rw [recGet_none hlk hpk]
    rw [if_neg (by decide)]
    exact Or.inl (speakerStr_setSpeaker hp n1)
  | some w =>
    rw [recGet_of_lookup hlk]
    rcases hv w (lookupEntry_mem_values hlk) with hh | hh
    · subst hh
      by_cases ht : jsTruthy (JSVal.str n1) = true
      · rw [if_pos ht]
        exact Or.inl (speakerStr_setSpeaker hp n1)
      · rw [if_neg (fun hc => ht hc)]
        exact Or.inl (speakerStr_setSpeaker hp n1)
    · subst hh
      by_cases ht : jsTruthy (JSVal.str n2) = true
      · rw [if_pos ht]
        exact Or.inr (speakerStr_setSpeaker hp n2)
      · rw [if_neg (fun hc => ht hc)]
        exact Or.inl (speakerStr_setSpeaker hp n1)

theorem applyScriptMap_speakers {lines : List JSVal} {n1 n2 : String}
    (hobj : ∀ l ∈ lines, (∃ ps, props l = some ps) ∧
      isProtoKey (speakerStr l) = false) :
    ∀ l' ∈ applyScriptMap lines n1 n2,
      speakerStr l' = n1 ∨ speakerStr l' = n2 := by
  intro l' hl'
  have hl'' : l' ∈ lines.map (applyMapLine
      (buildSpeakerMap (speakerOrder lines) n1 n2) n1) := hl'
  obtain ⟨l, hl, rfl⟩ := List.mem_map.mp hl''
  obtain ⟨⟨ps, hp⟩, hpk⟩ := hobj l hl
  exact applyMapLine_mem
    (buildSpeakerMap_values (speakerOrder lines) n1 n2) hp hpk

theorem scenarioValid_of {d' c1 c2 : JSVal}
    (hc : charactersOf d' = [c1, c2]) (h1 : CharFinal c1) (h2 : CharFinal c2)
    (hn : nameStr c1 ≠ nameStr c2)
    (hs : ∀ l ∈ scriptOf d',
      speakerStr l = nameStr c1 ∨ speakerStr l = nameStr c2) :
    scenarioValid d' = true := by
  obtain ⟨ps1, hp1, hn1, hg1, hv1, hmf1, hvm1⟩ := h1
  obtain ⟨ps2, hp2, hn2, hg2, hv2, hmf2, hvm2⟩ := h2
  unfold scenarioValid
  rw [hc]
  simp only [Bool.and_eq_true, bne_iff_ne, ne_eq, Bool.or_eq_true, beq_iff_eq,
    List.all_eq_true]
  refine ⟨⟨⟨⟨⟨?_, ?_⟩, ?_⟩, ?_⟩, ?_⟩, ?_⟩
  · exact hn
  · exact hmf1
  · exact hmf2
  · simpa [List.contains] using List.elem_eq_true_of_mem hvm1
  · simpa [List.contains] using List.elem_eq_true_of_mem hvm2
  · intro l hl
    rcases hs l hl with hh | hh
    · exact Or.inl hh
    · exact Or.inr hh

/-! ### Claims about the normalization stage -/

/-- C3: whenever the Scenario Normalizer succeeds on a property-bearing
payload whose provided character entries bear properties, each returned
character's voice belongs to its gender's fixed voice set, and same-gender
characters get distinct voices. -/
theorem normalizer_voice_invariant (data : JSVal) (r1 r2 : Nat) (d' : JSVal)
    (hp : hasProps data = true)
    (hch : ((padCharacters (charactersOf data)).take 2).all hasProps =
      true)
    (h : normalizeData data r1 r2 = .ok d') :
    ∃ c1 c2, charactersOf d' = [c1, c2] ∧
      voiceStr c1 ∈ genderVoices (genderStr c1) ∧
      voiceStr c2 ∈ genderVoices (genderStr c2) ∧
      (genderStr c1 = genderStr c2 → voiceStr c1 ≠ voiceStr c2) := by
  obtain ⟨ps, hps⟩ := hasProps_exists hp
  obtain ⟨ca, cb, script1, hnc, hsm, hd, hchars, hscript⟩ :=
    normalizeData_ok hps h
  obtain ⟨x, y, htake, hF1, hF2, hnne, hvne, hno1, hno2⟩ :=
    normalizeChars_ok (List.all_eq_true.mp hch) hnc
  obtain ⟨ps1, hp1, hn1, hg1, hv1, hmf1, hvm1⟩ := hF1
  obtain ⟨ps2, hp2, hn2, hg2, hv2, hmf2, hvm2⟩ := hF2
  exact ⟨ca, cb, hchars, hvm1, hvm2, fun _ => hvne⟩

/-- Witness for C3 at the concrete payload `exSimple`. -/
theorem normalizer_voice_invariant_witness :
    ∃ c1 c2, charactersOf exSimpleOut = [c1, c2] ∧
      voiceStr c1 ∈ genderVoices (genderStr c1) ∧
      voiceStr c2 ∈ genderVoices (genderStr c2) ∧
      (genderStr c1 = genderStr c2 → voiceStr c1 ≠ voiceStr c2) :=
  normalizer_voice_invariant exSimple 0 0 exSimpleOut rfl rfl rfl

/-- C4 counterexample: a script line whose raw speaker is `"__proto__"` has
no own map entry, yet its dynamic map read returns the inherited
`Object.prototype` object, which is truthy: the apply loop assigns that
object itself as the line's speaker, so the final speaker string equals
neither character name (and is not a rewrite to character 1's name). -/
theorem normalizer_proto_speaker_counterexample :
    normalizeData exProtoSpeaker 0 0 = .ok exProtoSpeakerOut ∧
    (charactersOf exProtoSpeakerOut).map nameStr = ["Ana", "Speaker 2"] ∧
    (scriptOf exProtoSpeakerOut).map (fun l => getField l "speaker") =
      [JSVal.proto] ∧
    ∀ l ∈ scriptOf exProtoSpeakerOut,
      speakerStr l ≠ "Ana" ∧ speakerStr l ≠ "Speaker 2" := by
  refine ⟨rfl, rfl, rfl, ?_⟩
  intro l hl
  have hl' : l = JSVal.obj [("speaker", JSVal.proto),
      ("text", .str "hola")] := by
    have : l ∈ [JSVal.obj [("speaker", JSVal.proto),
        ("text", JSVal.str "hola")]] := hl
    simpa using this
  subst hl'
  exact ⟨by decide, by decide⟩

/-- C4 (amended): whenever the Scenario Normalizer succeeds on a
property-bearing payload whose script entries bear properties and whose
sanitized raw speakers avoid `Object.prototype` member names, every script
line of the normalized scenario has a speaker string exactly equal to one of
the two character names (unmapped raw speakers having been rewritten to
character 1's name).  A raw speaker colliding with an `Object.prototype`
member instead gets the inherited prototype value itself assigned as its
speaker, see `normalizer_proto_speaker_counterexample`. -/
theorem normalizer_speaker_invariant_amended (data : JSVal) (r1 r2 : Nat)
    (d' : JSVal) (hp : hasProps data = true)
    (hsc : (scriptOf data).all hasProps = true)
    (hso : speakersOk data = true)
    (h : normalizeData data r1 r2 = .ok d') :
    ∃ c1 c2, charactersOf d' = [c1, c2] ∧
      ∀ l ∈ scriptOf d',
        speakerStr l = nameStr c1 ∨ speakerStr l = nameStr c2 := by
  obtain ⟨ps, hps⟩ := hasProps_exists hp
  obtain ⟨ca, cb, script1, hnc, hsm, hd, hchars, hscript⟩ :=
    normalizeData_ok hps h
  refine ⟨ca, cb, hchars, ?_⟩
  rw [hscript]
  apply applyScriptMap_speakers
  intro l hl
  obtain ⟨l0, hl0, hret⟩ := forall2_mem_right (mapM_ok_forall2 hsm) l hl
  obtain ⟨ps0, hps0⟩ := hasProps_exists (List.all_eq_true.mp hsc l0 hl0)
  obtain ⟨ps', hps', hlk, hspeq⟩ := sanitizeLine_ok hps0 hret
  refine ⟨⟨ps', hps'⟩, ?_⟩
  rw [hspeq]
  simpa using List.all_eq_true.mp hso l0 hl0

/-- Witness for C4 (amended) at the concrete payload `exSimple`. -/
theorem normalizer_speaker_invariant_amended_witness :
    ∃ c1 c2, charactersOf exSimpleOut = [c1, c2] ∧
      ∀ l ∈ scriptOf exSimpleOut,
        speakerStr l = nameStr c1 ∨ speakerStr l = nameStr c2 :=
  normalizer_speaker_invariant_amended exSimple 0 0 exSimpleOut rfl rfl rfl
    rfl

/-- C1 (amended): the Scenario Normalizer completes without throwing on
every property-bearing payload all of whose `characters` and `script`
entries bear properties (the `characters` / `script` fields may still be
missing or of the wrong shape), and when additionally no sanitized raw
speaker collides with an `Object.prototype` member name the result is a
structurally valid scenario.  A `null` or primitive array entry instead
makes the stage throw, see `normalizer_null_entry_counterexample`. -/
theorem normalizer_totality_amended (data : JSVal) (r1 r2 : Nat)
    (hp : hasProps data = true)
    (hch : ((padCharacters (charactersOf data)).take 2).all hasProps =
      true)
    (hsc : (scriptOf data).all hasProps = true) :
    ∃ d', normalizeData data r1 r2 = .ok d' ∧
      (speakersOk data = true → scenarioValid d' = true) := by
  obtain ⟨ps, hps⟩ := hasProps_exists hp
  have hch' : ∀ c ∈ (padCharacters (charactersOf data)).take 2,
      hasProps c = true :=
    List.all_eq_true.mp hch
  obtain ⟨ca, cb, hnc⟩ := normalizeChars_total data r1 r2 hch'
  have hsc' : ∀ l ∈ scriptOf data, ∃ b, sanitizeLine l = .ok b := by
    intro l hl
    obtain ⟨psl, hpsl⟩ := hasProps_exists (List.all_eq_true.mp hsc l hl)
    exact ⟨_, sanitizeLine_eq hpsl⟩
  obtain ⟨script1, hsm⟩ := mapM_ok_of_exists hsc'
  refine ⟨_, normalizeData_build hps r1 r2 hnc hsm, ?_⟩
  intro hso
  obtain ⟨x, y, htake, hF1, hF2, hnne, hvne, hno1, hno2⟩ :=
    normalizeChars_ok hch' hnc
  refine scenarioValid_of (charactersOf_build hps [ca, cb] _) hF1 hF2
    hnne ?_
  rw [scriptOf_build hps]
  apply applyScriptMap_speakers
  intro l hl
  obtain ⟨l0, hl0, hret⟩ := forall2_mem_right (mapM_ok_forall2 hsm) l hl
  obtain ⟨ps0, hps0⟩ := hasProps_exists (List.all_eq_true.mp hsc l0 hl0)
  obtain ⟨ps', hps', hlk, hspeq⟩ := sanitizeLine_ok hps0 hret
  refine ⟨⟨ps', hps'⟩, ?_⟩
  rw [hspeq]
  simpa using List.all_eq_true.mp hso l0 hl0

/-- Witness for C1 (amended) at the concrete payload `exSimple`. -/
theorem normalizer_totality_amended_witness :
    ∃ d', normalizeData exSimple 0 0 = .ok d' ∧
      (speakersOk exSimple = true → scenarioValid d' = true) :=
  normalizer_totality_amended exSimple 0 0 rfl rfl rfl

/-- C2 (amended): whenever normalization succeeds on a property-bearing
payload whose provided character entries bear properties and have
non-empty stringified trimmed names, the returned scenario has exactly two
characters whose names are distinct and non-empty.  Without the
non-emptiness proviso a whitespace-only provided name yields an empty final
name, see `normalizer_blank_name_counterexample`. -/
theorem normalizer_two_characters_amended (data : JSVal) (r1 r2 : Nat)
    (d' : JSVal) (hp : hasProps data = true)
    (hch : ((padCharacters (charactersOf data)).take 2).all hasProps =
      true)
    (h : normalizeData data r1 r2 = .ok d')
    (hn : rawNamesOk data = true) :
    ∃ c1 c2, charactersOf d' = [c1, c2] ∧ nameStr c1 ≠ nameStr c2 ∧
      nameStr c1 ≠ "" ∧ nameStr c2 ≠ "" := by
  obtain ⟨ps, hps⟩ := hasProps_exists hp
  obtain ⟨ca, cb, script1, hnc, hsm, hd, hchars, hscript⟩ :=
    normalizeData_ok hps h
  obtain ⟨x, y, htake, hF1, hF2, hnne, hvne, hno1, hno2⟩ :=
    normalizeChars_ok (List.all_eq_true.mp hch) hnc
  obtain ⟨x', y', htake', hx'm, hy'm⟩ := padTake_pair (charactersOf data)
  have hxy : x = x' ∧ y = y' := by
    have heq := htake.symm.trans htake'
    exact ⟨by injection heq, by
      have hq : [y] = [y'] := by injection heq
      injection hq⟩
  obtain ⟨hex, hey⟩ := hxy
  rw [← hex] at hx'm
  rw [← hey] at hy'm
  have hn' : ∀ c ∈ charactersOf data,
      (jsTrim (jsToString (getField c "name")) != "") = true :=
    List.all_eq_true.mp hn
  have hxname : jsTrim (jsToString (getField x "name")) ≠ "" := by
    rcases hx'm with hh | hh
    · exact bne_iff_ne.mp (hn' x hh)
    · rw [hh]; decide
  have hyname : jsTrim (jsToString (getField y "name")) ≠ "" := by
    rcases hy'm with hh | hh
    · exact bne_iff_ne.mp (hn' y hh)
    · rw [hh]; decide
  refine ⟨ca, cb, hchars, hnne, ?_, ?_⟩
  · rcases hno1 with hh | hh
    · rw [hh]; exact hxname
    · rw [hh]; exact append_ne_empty_right _ (by decide)
  · rcases hno2 with hh | hh
    · rw [hh]; exact hyname
    · rw [hh]; exact append_ne_empty_right _ (by decide)

/-- Witness for C2 (amended) at the concrete payload `exSimple`. -/
theorem normalizer_two_characters_amended_witness :
    ∃ c1 c2, charactersOf exSimpleOut = [c1, c2] ∧ nameStr c1 ≠ nameStr c2 ∧
      nameStr c1 ≠ "" ∧ nameStr c2 ≠ "" :=
  normalizer_two_characters_amended exSimple 0 0 exSimpleOut rfl rfl rfl rfl

/-! ### The distinct ordered speakers -/

theorem insertAscBy_perm (key : String → Nat) (x : String) :
    ∀ (l : List String), List.Perm (insertAscBy key x l) (x :: l) := by
  intro l
  induction l with
  | nil => exact List.Perm.refl _
  | cons y ys ih =>
    unfold insertAscBy
    by_cases h : key x < key y
    · rw [if_pos h]
    · rw [if_neg h]
      exact (ih.cons y).trans (List.Perm.swap x y ys)

theorem sortAscBy_perm (key : String → Nat) (l : List String) :
    List.Perm (sortAscBy key l) l := by
  unfold sortAscBy
  induction l with
  | nil => exact List.Perm.refl _
  | cons x t ih =>
    rw [List.foldr_cons]
    exact (insertAscBy_perm key x _).trans (ih.cons x)

theorem insertDescBy_perm (cmp : String → String → Int) (x : String) :
    ∀ (l : List String), List.Perm (insertDescBy cmp x l) (x :: l) := by
  intro l
  induction l with
  | nil => exact List.Perm.refl _
  | cons y ys ih =>
    unfold insertDescBy
    by_cases h : cmp x y ≤ 0
    · rw [if_pos h]
    · rw [if_neg h]
      exact (ih.cons y).trans (List.Perm.swap x y ys)

theorem sortByCountDesc_perm (cmp : String → String → Int) (l : List String) :
    List.Perm (sortByCountDesc cmp l) l := by
  unfold sortByCountDesc
  induction l with
  | nil => exact List.Perm.refl _
  | cons x t ih =>
    rw [List.foldr_cons]
    exact (insertDescBy_perm cmp x _).trans (ih.cons x)

theorem jsObjectKeys_perm (ps : List (String × JSVal)) :
    List.Perm (jsObjectKeys ps) (ps.map Prod.fst) := by
  show List.Perm (sortAscBy (fun s => (strDigitsToNat s).getD 0)
      ((ps.map Prod.fst).filter isArrayIndexKey) ++
      (ps.map Prod.fst).filter (fun s => !isArrayIndexKey s))
    (ps.map Prod.fst)
  exact ((sortAscBy_perm _ _).append_right _).trans
    (List.filter_append_perm _ _)

theorem speakerOrder_perm (lines : List JSVal) :
    List.Perm (speakerOrder lines)
      ((countsList (lines.map speakerStr)).map Prod.fst) := by
  show List.Perm (sortByCountDesc
      (sortCmp (countsList (lines.map speakerStr)))
      (jsObjectKeys (countsList (lines.map speakerStr)))) _
  exact (sortByCountDesc_perm _ _).trans (jsObjectKeys_perm _)

theorem bumpCount_keys (m : List (String × JSVal)) (s : String) :
    (bumpCount m s).map Prod.fst =
      if s = "__proto__" then m.map Prod.fst
      else if s ∈ m.map Prod.fst then m.map Prod.fst
      else m.map Prod.fst ++ [s] := by
  unfold bumpCount
  by_cases hp : s = "__proto__"
  · rw [if_pos hp, hp, recSet_proto]
  · rw [if_neg hp, recSet_not_proto _ hp, setEntry_keys]

theorem mem_keys_bumpCount {m : List (String × JSVal)} {s k : String} :
    k ∈ (bumpCount m s).map Prod.fst ↔
      k ∈ m.map Prod.fst ∨ (k = s ∧ s ≠ "__proto__") := by
  rw [bumpCount_keys]
  by_cases hp : s = "__proto__"
  · rw [if_pos hp]
    constructor
    · exact Or.inl
    · rintro (h | ⟨_, h⟩)
      · exact h
      · exact absurd hp h
  · rw [if_neg hp]
    by_cases hs : s ∈ m.map Prod.fst
    · rw [if_pos hs]
      constructor
      · exact Or.inl
      · rintro (h | ⟨h, _⟩)
        · exact h
        · exact h ▸ hs
    · rw [if_neg hs]
      simp only [List.mem_append, List.mem_singleton]
      constructor
      · rintro (h | h)
        · exact Or.inl h
        · exact Or.inr ⟨h, hp⟩
      · rintro (h | ⟨h, _⟩)
        · exact Or.inl h
        · exact Or.inr h

theorem keys_countsList_nodup_aux :
    ∀ (ss : List String) (m : List (String × JSVal)),
      (m.map Prod.fst).Nodup →
      ((ss.foldl bumpCount m).map Prod.fst).Nodup := by
  intro ss
  induction ss with
  | nil => intro m hm; exact hm
  | cons s t ih =>
    intro m hm
    rw [List.foldl_cons]
    apply ih
    rw [bumpCount_keys]
    by_cases hp : s = "__proto__"
    · rw [if_pos hp]; exact hm
    · rw [if_neg hp]
      by_cases hs : s ∈ m.map Prod.fst
      · rw [if_pos hs]; exact hm
      · rw [if_neg hs]
        refine List.Nodup.append hm (List.nodup_singleton s) ?_
        intro a ha hb
        simp at hb
        subst hb
        exact hs ha

theorem countsList_keys_nodup (ss : List String) :
    ((countsList ss).map Prod.fst).Nodup :=
  keys_countsList_nodup_aux ss [] (by simp)

theorem mem_keys_countsList_aux :
    ∀ (ss : List String) (m : List (String × JSVal)) (k : String),
      k ∈ (ss.foldl bumpCount m).map Prod.fst ↔
        k ∈ m.map Prod.fst ∨ (k ∈ ss ∧ k ≠ "__proto__") := by
  intro ss
  induction ss with
  | nil => intro m k; simp
  | cons s t ih =>
    intro m k
    rw [List.foldl_cons, ih, mem_keys_bumpCount, List.mem_cons]
    constructor
    · rintro ((h | ⟨hk, hs⟩) | ⟨h, hk⟩)
      · exact Or.inl h
      · exact Or.inr ⟨Or.inl hk, hk ▸ hs⟩
      · exact Or.inr ⟨Or.inr h, hk⟩
    · rintro (h | ⟨(h | h), hk⟩)
      · exact Or.inl (Or.inl h)
      · exact Or.inl (Or.inr ⟨h, h ▸ hk⟩)
      · exact Or.inr ⟨h, hk⟩

theorem mem_keys_countsList {ss : List String} {k : String} :
    k ∈ (countsList ss).map Prod.fst ↔ k ∈ ss ∧ k ≠ "__proto__" := by
  rw [show countsList ss = ss.foldl bumpCount [] from rfl,
    mem_keys_countsList_aux]
  simp

theorem speakerOrder_nodup (lines : List JSVal) :
    (speakerOrder lines).Nodup :=
  ((speakerOrder_perm lines).nodup_iff).mpr (countsList_keys_nodup _)

theorem mem_speakerOrder {lines : List JSVal} {s : String} :
    s ∈ speakerOrder lines ↔
      s ∈ lines.map speakerStr ∧ s ≠ "__proto__" := by
  rw [(speakerOrder_perm lines).mem_iff, mem_keys_countsList]

/-! ### The unmatched-speaker assignment -/

theorem strIncludes_empty (hay : String) : strIncludes hay "" = true := by
  unfold strIncludes
  rw [show ("" : String).toList = [] from rfl]
  unfold containsAt
  simp [List.isPrefixOf]

theorem no_match_ne_empty {s n1 : String} (h : fuzzyMatch s n1 = false) :
    s ≠ "" := by
  intro hs
  subst hs
  have h2 : strIncludes (strLower n1) (strLower "") = false := by
    simp only [fuzzyMatch, Bool.or_eq_false_iff] at h
    exact h.1.2
  rw [show strLower "" = "" from rfl, strIncludes_empty] at h2
  cases h2

theorem fuzzyStep_no_match {n1 n2 : String} {m : List (String × JSVal)}
    {s : String} (h1 : fuzzyMatch s n1 = false)
    (h2 : fuzzyMatch s n2 = false) : fuzzyStep n1 n2 m s = m := by
  simp [fuzzyStep, h1, h2]

theorem foldl_fuzzyStep_no_match {n1 n2 : String} :
    ∀ (sp : List String) (m : List (String × JSVal)),
      (∀ s ∈ sp, fuzzyMatch s n1 = false ∧ fuzzyMatch s n2 = false) →
      sp.foldl (fuzzyStep n1 n2) m = m := by
  intro sp
  induction sp with
  | nil => intro m _; rfl
  | cons s t ih =>
    intro m h
    rw [List.foldl_cons, fuzzyStep_no_match (h s (List.mem_cons_self s t)).1
      (h s (List.mem_cons_self s t)).2]
    exact ih m (fun a ha => h a (List.mem_cons_of_mem s ha))

theorem fuzzyPass_no_match {n1 n2 : String} {sp : List String}
    (h : ∀ s ∈ sp, fuzzyMatch s n1 = false ∧ fuzzyMatch s n2 = false) :
    fuzzyPass sp n1 n2 = [] :=
  foldl_fuzzyStep_no_match sp [] h

theorem assignStep_eq_assign {m : List (String × JSVal)}
    {unmapped : List String} {i : Nat} {name u : String}
    (hcon : valuesContain m name = false)
    (hget : unmapped.get? i = some u) (hu : u ≠ "")
    (hup : u ≠ "__proto__") :
    assignStep m unmapped i name = (setEntry m u (.str name), i + 1) := by
  unfold assignStep
  rw [if_pos (by rw [hcon]; rfl), hget]
  show (if (u != "") = true then (recSet m u (.str name), i + 1)
    else (m, i)) = _
  rw [if_pos (bne_iff_ne.mpr hu), recSet_not_proto _ hup]

theorem lookup_foldl_recSet (n1 : String) :
    ∀ (us : List String) (m : List (String × JSVal)) (k : String),
      (∀ u ∈ us, u ≠ "__proto__") →
      lookupEntry (us.foldl (fun m u => recSet m u (.str n1)) m) k =
        if k ∈ us then some (.str n1) else lookupEntry m k := by
  intro us
  induction us with
  | nil => intro m k _; simp
  | cons u t ih =>
    intro m k hnp
    rw [List.foldl_cons, ih _ _ (fun a ha => hnp a (List.mem_cons_of_mem u ha)),
      recSet_not_proto _ (hnp u (List.mem_cons_self u t))]
    by_cases hk : k ∈ t
    · rw [if_pos hk, if_pos (List.mem_cons_of_mem u hk)]
    · rw [if_neg hk]
      by_cases hku : k = u
      · subst hku
        rw [if_pos (List.mem_cons_self k t), lookupEntry_setEntry_self]
      · rw [lookupEntry_setEntry_ne _ _ hku,
          if_neg (by simp [List.mem_cons, hku, hk])]

theorem buildSpeakerMap_no_match {s0 s1 : String} {rest : List String}
    {n1 n2 : String} (hn12 : n1 ≠ n2)
    (hpk : ∀ s ∈ s0 :: s1 :: rest, isProtoKey s = false)
    (hfm : ∀ s ∈ s0 :: s1 :: rest,
      fuzzyMatch s n1 = false ∧ fuzzyMatch s n2 = false)
    (hnd : (s0 :: s1 :: rest).Nodup) :
    lookupEntry (buildSpeakerMap (s0 :: s1 :: rest) n1 n2) s0 =
        some (.str n1) ∧
      lookupEntry (buildSpeakerMap (s0 :: s1 :: rest) n1 n2) s1 =
        some (.str n2) ∧
      ∀ u ∈ rest,
        lookupEntry (buildSpeakerMap (s0 :: s1 :: rest) n1 n2) u =
          some (.str n1) := by
  obtain ⟨h0, hnd1⟩ := List.nodup_cons.mp hnd
  obtain ⟨h1, _⟩ := List.nodup_cons.mp hnd1
  have hs0s1 : s0 ≠ s1 := fun hh => h0 (hh ▸ List.mem_cons_self s1 rest)
  have hs0rest : s0 ∉ rest := fun hm => h0 (List.mem_cons_of_mem s1 hm)
  have hm0 : fuzzyPass (s0 :: s1 :: rest) n1 n2 = [] := fuzzyPass_no_match hfm
  have hnp : ∀ s ∈ s0 :: s1 :: rest, s ≠ "__proto__" :=
    fun s hs => (isProtoKey_false (hpk s hs)).1
  have hunm : (s0 :: s1 :: rest).filter
      (fun s => notMapped (fuzzyPass (s0 :: s1 :: rest) n1 n2) s) =
      s0 :: s1 :: rest := by
    rw [hm0]
    refine List.filter_eq_self.mpr (fun a ha => ?_)
    show notMapped [] a = true
    unfold notMapped
    rw [recGet_none (show lookupEntry ([] : List (String × JSVal)) a = none
      from rfl) (hpk a ha)]
    rfl
  have hs0ne : s0 ≠ "" := no_match_ne_empty (hfm s0 (by simp)).1
  have hs1ne : s1 ≠ "" := no_match_ne_empty (hfm s1 (by simp)).1
  have hstep1 : assignStep (fuzzyPass (s0 :: s1 :: rest) n1 n2)
      (s0 :: s1 :: rest) 0 n1 = ([(s0, .str n1)], 1) := by
    rw [hm0, assignStep_eq_assign (by rfl) (by rfl) hs0ne
      (hnp s0 (by simp))]
    rfl
  have hstep2 : assignStep ([(s0, JSVal.str n1)], 1).1 (s0 :: s1 :: rest)
      ([(s0, JSVal.str n1)], 1).2 n2 = ([(s0, .str n1), (s1, .str n2)], 2) := by
    have hcon : valuesContain [(s0, JSVal.str n1)] n2 = false := by
      cases hc : valuesContain [(s0, JSVal.str n1)] n2 with
      | false => rfl
      | true =>
        have hmem : isStrV n2 (JSVal.str n1) = true := by
          simpa [valuesContain] using hc
        have : n1 = n2 := by simpa [isStrV] using hmem
        exact absurd this hn12
    rw [assignStep_eq_assign hcon (by rfl) hs1ne (hnp s1 (by simp))]
    simp [setEntry, hs0s1]
  have hfinal : buildSpeakerMap (s0 :: s1 :: rest) n1 n2 =
      rest.foldl (fun m u => recSet m u (.str n1))
        [(s0, .str n1), (s1, .str n2)] := by
    simp only [buildSpeakerMap]
    rw [hunm, hstep1, hstep2]
    rfl
  have hrestnp : ∀ u ∈ rest, u ≠ "__proto__" :=
    fun u hu => hnp u (List.mem_cons_of_mem s0 (List.mem_cons_of_mem s1 hu))
  refine ⟨?_, ?_, ?_⟩
  · rw [hfinal, lookup_foldl_recSet _ _ _ _ hrestnp, if_neg hs0rest]
    simp [lookupEntry]
  · rw [hfinal, lookup_foldl_recSet _ _ _ _ hrestnp, if_neg h1]
    simp [lookupEntry, hs0s1]
  · intro u hu
    rw [hfinal, lookup_foldl_recSet _ _ _ _ hrestnp, if_pos hu]

/-- C7 counterexample: the sanitized script `exProtoScript` has the two
distinct raw speakers `"__proto__"` and `"Bob"`, neither of which
fuzzy-matches the names `"Xy"` / `"Zw"`; yet a `"__proto__"` speaker never
creates a frequency binding, so the ordered distinct-speaker list collapses
to `["Bob"]`, the map only assigns `Bob ↦ Xy`, and no speaker at all is
mapped to character 2's name `"Zw"`. -/
theorem speaker_map_proto_counterexample :
    (exProtoScript.map speakerStr) = ["__proto__", "Bob"] ∧
    (∀ s ∈ exProtoScript.map speakerStr,
      fuzzyMatch s "Xy" = false ∧ fuzzyMatch s "Zw" = false) ∧
    speakerOrder exProtoScript = ["Bob"] ∧
    buildSpeakerMap (speakerOrder exProtoScript) "Xy" "Zw" =
      [("Bob", .str "Xy")] ∧
    valuesContain (buildSpeakerMap (speakerOrder exProtoScript) "Xy" "Zw")
      "Zw" = false := by
  refine ⟨rfl, by decide, rfl, rfl, rfl⟩

/-- C7 (amended): when the ordered distinct speakers avoid
`Object.prototype` member names, none of them fuzzy-matches either
(distinct) character name, and at least two of them occur, the speaker map
assigns the first (most frequent) speaker to character 1's name, the second
to character 2's name, and every remaining speaker defaults to character 1's
name — so each character has at least one mapped speaker.  A speaker
colliding with an `Object.prototype` member is never treated as unmapped
(its dynamic read is truthy), see `speaker_map_proto_counterexample`. -/
theorem speaker_map_unmatched_amended (lines : List JSVal) (n1 n2 : String)
    (hn12 : n1 ≠ n2) (s0 s1 : String) (rest : List String)
    (horder : speakerOrder lines = s0 :: s1 :: rest)
    (hpk : ∀ s ∈ speakerOrder lines, isProtoKey s = false)
    (hfm : ∀ s ∈ speakerOrder lines,
      fuzzyMatch s n1 = false ∧ fuzzyMatch s n2 = false) :
    lookupEntry (buildSpeakerMap (speakerOrder lines) n1 n2) s0 =
        some (.str n1) ∧
      lookupEntry (buildSpeakerMap (speakerOrder lines) n1 n2) s1 =
        some (.str n2) ∧
      ∀ u ∈ rest,
        lookupEntry (buildSpeakerMap (speakerOrder lines) n1 n2) u =
          some (.str n1) := by
  have hnd := speakerOrder_nodup lines
  rw [horder] at hnd hpk hfm ⊢
  exact buildSpeakerMap_no_match hn12 hpk hfm hnd

/-- Witness for C7 (amended): the script `exUnmatchedScript` (speakers Bob,
Bob, Eve) against the names `"Xy"` / `"Zw"`. -/
theorem speaker_map_unmatched_amended_witness :
    lookupEntry (buildSpeakerMap (speakerOrder exUnmatchedScript) "Xy" "Zw")
        "Bob" = some (.str "Xy") ∧
      lookupEntry (buildSpeakerMap (speakerOrder exUnmatchedScript) "Xy" "Zw")
        "Eve" = some (.str "Zw") ∧
      ∀ u ∈ ([] : List String),
        lookupEntry (buildSpeakerMap (speakerOrder exUnmatchedScript)
          "Xy" "Zw") u = some (.str "Xy") :=
  speaker_map_unmatched_amended exUnmatchedScript "Xy" "Zw" (by decide)
    "Bob" "Eve" [] (by decide) (by decide) (by decide)

/-! ### Fixpoint lemmas for re-running the normalizer -/

theorem map_self {α : Type} {f : α → α} :
    ∀ {ls : List α}, (∀ a ∈ ls, f a = a) → ls.map f = ls := by
  intro ls
  induction ls with
  | nil => intro _; rfl
  | cons x t ih =>
    intro h
    rw [List.map_cons, h x (List.mem_cons_self x t),
      ih (fun a ha => h a (List.mem_cons_of_mem x ha))]

theorem sanitizeCharacter_fix {c : JSVal} (hF : CharFinal c)
    (hst : jsTrim (nameStr c) = nameStr c) :
    sanitizeCharacter c = .ok c := by
  obtain ⟨ps, hp, hn, hg, hv, hmf, hvm⟩ := hF
  have hgfn : getField c "name" = .str (nameStr c) := by
    rw [getField_of_props hp, hn]; rfl
  have hjs : jsTrim (jsToString (getField c "name")) = nameStr c := by
    rw [hgfn]
    show jsTrim (nameStr c) = nameStr c
    exact hst
  have hset : setJSField c "name"
      (.str (jsTrim (jsToString (getField c "name")))) = c := by
    rw [hjs]
    exact setJSField_self_of_lookup hp hn
  have hgg : getField c "gender" = .str (genderStr c) := by
    rw [getField_of_props hp, hg]; rfl
  have hres : isResolvedGender (getField c "gender") = true := by
    rw [hgg]
    rcases hmf with hh | hh <;> simp [isResolvedGender, hh]
  rw [sanitizeCharacter_eq hp, hset, if_pos hres]

theorem normalizeChars_fix {ca cb : JSVal} (r1 r2 : Nat) {d : JSVal}
    (hchars : charactersOf d = [ca, cb])
    (hFa : CharFinal ca) (hFb : CharFinal cb)
    (hsta : jsTrim (nameStr ca) = nameStr ca)
    (hstb : jsTrim (nameStr cb) = nameStr cb)
    (hnne : nameStr ca ≠ nameStr cb)
    (hvne : voiceStr ca ≠ voiceStr cb) :
    normalizeChars d r1 r2 = .ok (ca, cb) := by
  have htake : (padCharacters (charactersOf d)).take 2 = [ca, cb] := by
    rw [hchars]
    rfl
  have hsca : sanitizeCharacter ca = .ok ca := sanitizeCharacter_fix hFa hsta
  have hscb : sanitizeCharacter cb = .ok cb := sanitizeCharacter_fix hFb hstb
  rw [normalizeChars_eq r1 r2 htake hsca hscb]
  obtain ⟨psa, hpa, hna, hga, hvaL, hmfa, hvma⟩ := hFa
  obtain ⟨psb, hpb, hnb, hgb, hvbL, hmfb, hvmb⟩ := hFb
  have hren : renameIfEqual ca cb = (ca, cb) := by
    unfold renameIfEqual
    rw [if_neg hnne]
  rw [hren]
  have hgfa : getField ca "voice" = .str (voiceStr ca) := by
    rw [getField_of_props hpa, hvaL]; rfl
  have hva : getValidVoice ca .undef r1 = .str (voiceStr ca) :=
    getValidVoice_keep r1 hgfa hvma (by intro t ht; cases ht)
  have hsva : setJSField ca "voice" (.str (voiceStr ca)) = ca :=
    setJSField_self_of_lookup hpa hvaL
  have hgfb : getField cb "voice" = .str (voiceStr cb) := by
    rw [getField_of_props hpb, hvbL]; rfl
  have hvb : getValidVoice cb (.str (voiceStr ca)) r2 = .str (voiceStr cb) :=
    getValidVoice_keep r2 hgfb hvmb (by
      intro t ht
      injection ht with ht2
      subst ht2
      exact fun hh => hvne hh.symm)
  have hsvb : setJSField cb "voice" (.str (voiceStr cb)) = cb :=
    setJSField_self_of_lookup hpb hvbL
  have hgoal : assignVoices ca cb r1 r2 = (ca, cb) := by
    simp only [assignVoices]
    rw [hva, hsva, hgfa, hvb, hsvb]
  rw [show ((ca, cb) : JSVal × JSVal).1 = ca from rfl,
    show ((ca, cb) : JSVal × JSVal).2 = cb from rfl, hgoal]

theorem assignStep_nil (m : List (String × JSVal)) (i : Nat)
    (name : String) : assignStep m [] i name = (m, i) := by
  unfold assignStep
  by_cases hc : (!(valuesContain m name)) = true
  · rw [if_pos hc]
    rw [show ([] : List String).get? i = none from rfl]
  · rw [if_neg hc]

theorem foldl_fuzzyStep_id {n1 n2 : String} (hcm : fuzzyMatch n2 n1 = false)
    (hq1 : n1 ≠ "__proto__") (hq2 : n2 ≠ "__proto__") :
    ∀ (sp : List String) (m : List (String × JSVal)) (k : String),
      (∀ s ∈ sp, s = n1 ∨ s = n2) →
      lookupEntry (sp.foldl (fuzzyStep n1 n2) m) k =
        if k ∈ sp then some (.str k) else lookupEntry m k := by
  intro sp
  induction sp with
  | nil => intro m k _; simp
  | cons s t ih =>
    intro m k hsub
    rw [List.foldl_cons]
    have hstep : fuzzyStep n1 n2 m s = setEntry m s (.str s) := by
      rcases hsub s (List.mem_cons_self s t) with hh | hh
      · rw [hh]
        unfold fuzzyStep
        rw [if_pos (show fuzzyMatch n1 n1 = true from by simp [fuzzyMatch]),
          recSet_not_proto _ hq1]
      · rw [hh]
        unfold fuzzyStep
        rw [if_neg (by simp [hcm]),
          if_pos (show fuzzyMatch n2 n2 = true from by simp [fuzzyMatch]),
          recSet_not_proto _ hq2]
    rw [hstep, ih _ k (fun a ha => hsub a (List.mem_cons_of_mem s ha))]
    by_cases hk : k ∈ t
    · rw [if_pos hk, if_pos (List.mem_cons_of_mem s hk)]
    · rw [if_neg hk]
      by_cases hks : k = s
      · subst hks
        rw [if_pos (List.mem_cons_self k t), lookupEntry_setEntry_self]
      · rw [if_neg (by simp [List.mem_cons, hks, hk]),
          lookupEntry_setEntry_ne _ _ hks]

theorem buildSpeakerMap_of_unmapped_nil {sp : List String} {n1 n2 : String}
    (hunm : sp.filter (fun s => notMapped (fuzzyPass sp n1 n2) s) = []) :
    buildSpeakerMap sp n1 n2 = fuzzyPass sp n1 n2 := by
  simp only [buildSpeakerMap]
  rw [hunm, assignStep_nil, assignStep_nil]
  rfl

theorem applyMapLine_shape {m : List (String × JSVal)} {n1 n2 : String}
    (hv : ∀ x ∈ mapValues m, x = JSVal.str n1 ∨ x = JSVal.str n2)
    {l : JSVal} {ps : List (String × JSVal)} (hp : props l = some ps)
    (hpk : isProtoKey (speakerStr l) = false) :
    ∃ ps', props (applyMapLine m n1 l) = some ps' ∧
      lookupEntry ps' "speaker" =
        some (.str (speakerStr (applyMapLine m n1 l))) := by
  simp only [applyMapLine]
  cases hlk : lookupEntry m (speakerStr l) with
  | none =>
    rw [recGet_none hlk hpk, if_neg (by decide)]
    exact ⟨_, props_setJSField hp _ _, by
      rw [lookupEntry_setEntry_self, speakerStr_setSpeaker hp]⟩
  | some w =>
    rw [recGet_of_lookup hlk]
    rcases hv w (lookupEntry_mem_values hlk) with hh | hh
    · subst hh
      by_cases ht : jsTruthy (JSVal.str n1) = true
      · rw [if_pos ht]
        exact ⟨_, props_setJSField hp _ _, by
          rw [lookupEntry_setEntry_self, speakerStr_setSpeaker hp]⟩
      · rw [if_neg (fun hc => ht hc)]
        exact ⟨_, props_setJSField hp _ _, by
          rw [lookupEntry_setEntry_self, speakerStr_setSpeaker hp]⟩
    · subst hh
      by_cases ht : jsTruthy (JSVal.str n2) = true
      · rw [if_pos ht]
        exact ⟨_, props_setJSField hp _ _, by
          rw [lookupEntry_setEntry_self, speakerStr_setSpeaker hp]⟩
      · rw [if_neg (fun hc => ht hc)]
        exact ⟨_, props_setJSField hp _ _, by
          rw [lookupEntry_setEntry_self, speakerStr_setSpeaker hp]⟩

theorem sanitizeLine_fix {l : JSVal} {ps : List (String × JSVal)} {s : String}
    (hp : props l = some ps)
    (hsp : lookupEntry ps "speaker" = some (.str s))
    (hne : s ≠ "") (hst : jsTrim s = s) :
    sanitizeLine l = .ok l := by
  have hgf : getField l "speaker" = .str s := by
    rw [getField_of_props hp, hsp]; rfl
  have hraw : rawSpeakerText l = s := by
    simp only [rawSpeakerText]
    rw [hgf, if_pos (show jsTruthy (.str s) = true from bne_iff_ne.mpr hne)]
    show jsTrim s = s
    exact hst
  rw [sanitizeLine_eq hp, hraw, setJSField_self_of_lookup hp hsp]

theorem applyMapLine_fix {m : List (String × JSVal)} {n1 : String}
    {l : JSVal} {ps : List (String × JSVal)} {s : String}
    (hp : props l = some ps)
    (hsp : lookupEntry ps "speaker" = some (.str s))
    (hlk : lookupEntry m s = some (.str s)) (hne : s ≠ "") :
    applyMapLine m n1 l = l := by
  have hspk : speakerStr l = s := strField_of_lookup hp hsp
  simp only [applyMapLine, hspk]
  rw [recGet_of_lookup hlk,
    if_pos (show jsTruthy (.str s) = true from bne_iff_ne.mpr hne)]
  exact setJSField_self_of_lookup hp hsp

theorem normalizeData_fix {data d : JSVal} {ps : List (String × JSVal)}
    {ca cb : JSVal} {script2 : List JSVal} (r1' r2' : Nat)
    (hps : props data = some ps)
    (hdd : d = setJSField (setJSField data "characters" (jsArr [ca, cb]))
      "script" (jsArr script2))
    (hchars : charactersOf d = [ca, cb])
    (hscript : scriptOf d = script2)
    (hFa : CharFinal ca) (hFb : CharFinal cb)
    (hnne : nameStr ca ≠ nameStr cb) (hvne : voiceStr ca ≠ voiceStr cb)
    (hsta : jsTrim (nameStr ca) = nameStr ca)
    (hstb : jsTrim (nameStr cb) = nameStr cb)
    (hanem : nameStr ca ≠ "") (hbnem : nameStr cb ≠ "")
    (hcmF : fuzzyMatch (nameStr cb) (nameStr ca) = false)
    (hqa : nameStr ca ≠ "__proto__") (hqb : nameStr cb ≠ "__proto__")
    (hline : ∀ l ∈ script2, ∃ pl s, props l = some pl ∧
      lookupEntry pl "speaker" = some (JSVal.str s) ∧
      speakerStr l = s ∧ (s = nameStr ca ∨ s = nameStr cb)) :
    normalizeData d r1' r2' = .ok d := by
  have hsub : ∀ s ∈ speakerOrder script2,
      s = nameStr ca ∨ s = nameStr cb := by
    intro s hs
    have hs2 : s ∈ script2.map speakerStr := (mem_speakerOrder.mp hs).1
    obtain ⟨l, hl, hspk⟩ := List.mem_map.mp hs2
    obtain ⟨pl, s', hpl, hlk, hspk', hmem⟩ := hline l hl
    rw [← hspk, hspk']
    exact hmem
  have hm0lk : ∀ s ∈ speakerOrder script2,
      lookupEntry (fuzzyPass (speakerOrder script2) (nameStr ca)
        (nameStr cb)) s = some (.str s) := by
    intro s hs
    have hh := foldl_fuzzyStep_id hcmF hqa hqb (speakerOrder script2) [] s hsub
    rw [if_pos hs] at hh
    exact hh
  have hne_sp : ∀ s ∈ speakerOrder script2, s ≠ "" := by
    intro s hs
    rcases hsub s hs with hh | hh
    · rw [hh]; exact hanem
    · rw [hh]; exact hbnem
  have hunm_nil : (speakerOrder script2).filter (fun s =>
      notMapped (fuzzyPass (speakerOrder script2) (nameStr ca)
        (nameStr cb)) s) = [] := by
    rw [List.filter_eq_nil_iff]
    intro a ha
    have hlk := hm0lk a ha
    have hane := hne_sp a ha
    simp [notMapped, recGet_of_lookup hlk, jsTruthy, hane]
  have hM' : buildSpeakerMap (speakerOrder script2) (nameStr ca)
      (nameStr cb) = fuzzyPass (speakerOrder script2) (nameStr ca)
        (nameStr cb) := buildSpeakerMap_of_unmapped_nil hunm_nil
  have happly : applyScriptMap script2 (nameStr ca) (nameStr cb) =
      script2 := by
    show script2.map (applyMapLine (buildSpeakerMap (speakerOrder script2)
      (nameStr ca) (nameStr cb)) (nameStr ca)) = script2
    apply map_self
    intro l hl
    obtain ⟨pl, s, hpl, hlk, hspk, hmem⟩ := hline l hl
    have hsin : s ∈ speakerOrder script2 := by
      apply mem_speakerOrder.mpr
      refine ⟨List.mem_map.mpr ⟨l, hl, hspk⟩, ?_⟩
      rcases hmem with hh | hh
      · rw [hh]; exact hqa
      · rw [hh]; exact hqb
    have hlkM : lookupEntry (buildSpeakerMap (speakerOrder script2)
        (nameStr ca) (nameStr cb)) s = some (.str s) := by
      rw [hM']
      exact hm0lk s hsin
    exact applyMapLine_fix hpl hlk hlkM (hne_sp s hsin)
  have hsm2 : script2.mapM sanitizeLine = .ok script2 := by
    apply forall2_mapM_ok
    apply List.forall₂_same.mpr
    intro l hl
    obtain ⟨pl, s, hpl, hlk, hspk, hmem⟩ := hline l hl
    have hsne : s ≠ "" := by
      rcases hmem with hh | hh
      · rw [hh]; exact hanem
      · rw [hh]; exact hbnem
    have hsst : jsTrim s = s := by
      rcases hmem with hh | hh
      · rw [hh]; exact hsta
      · rw [hh]; exact hstb
    exact sanitizeLine_fix hpl hlk hsne hsst
  have hchars2 := normalizeChars_fix r1' r2' hchars hFa hFb hsta hstb
    hnne hvne
  have hsm2' : (scriptOf d).mapM sanitizeLine = .ok script2 := by
    rw [hscript]
    exact hsm2
  have hpd : props d = some (setEntry (setEntry ps "characters"
      (jsArr [ca, cb])) "script" (jsArr script2)) := by
    rw [hdd]
    exact props_setJSField (props_setJSField hps _ _) _ _
  rw [normalizeData_build hpd r1' r2' hchars2 hsm2', happly]
  have hlc : lookupEntry (setEntry (setEntry ps "characters"
      (jsArr [ca, cb])) "script" (jsArr script2)) "characters" =
      some (jsArr [ca, cb]) := by
    rw [lookupEntry_setEntry_ne _ _ (by decide)]
    exact lookupEntry_setEntry_self _ _ _
  have hls : lookupEntry (setEntry (setEntry ps "characters"
      (jsArr [ca, cb])) "script" (jsArr script2)) "script" =
      some (jsArr script2) := lookupEntry_setEntry_self _ _ _
  rw [setJSField_self_of_lookup hpd hlc, setJSField_self_of_lookup hpd hls]

/-- C8 (amended): the Normalizer is idempotent on any successful output of a
property-bearing payload (entries included) whose two final character names
are trim-stable, non-empty, free of `Object.prototype` member collisions,
and do not cross-fuzzy-match, provided the payload's sanitized raw speakers
also avoid `Object.prototype` member names: re-running the normalization
stage on such an output returns it unchanged, for every outcome of the
random draws.  Without trim-stability the disambiguated names `" (1)"` /
`" (2)"` are re-trimmed by the second run even when every raw script speaker
equals a final character name, see
`normalizer_not_idempotent_counterexample`. -/
theorem normalizer_idempotent_amended (data d : JSVal) (r1 r2 : Nat)
    (hp : hasProps data = true)
    (hch : ((padCharacters (charactersOf data)).take 2).all hasProps =
      true)
    (hsc : (scriptOf data).all hasProps = true)
    (hso : speakersOk data = true)
    (h : normalizeData data r1 r2 = .ok d)
    (hst : namesStable d = true)
    (hcm : namesNoCrossMatch d = true)
    (hnp : namesNotProto d = true) :
    ∀ r1' r2', normalizeData d r1' r2' = .ok d := by
  intro r1' r2'
  obtain ⟨ps, hps⟩ := hasProps_exists hp
  obtain ⟨ca, cb, script1, hnc, hsm, hd, hchars, hscript⟩ :=
    normalizeData_ok hps h
  obtain ⟨x, y, htake, hFa, hFb, hnne, hvne, hno1, hno2⟩ :=
    normalizeChars_ok (List.all_eq_true.mp hch) hnc
  have hcaMem : ca ∈ charactersOf d := by
    rw [hchars]
    exact List.mem_cons_self _ _
  have hcbMem : cb ∈ charactersOf d := by
    rw [hchars]
    exact List.mem_cons_of_mem _ (List.mem_cons_self _ _)
  have hstAll : ∀ c ∈ charactersOf d,
      ((jsTrim (nameStr c) == nameStr c) && (nameStr c != "")) = true :=
    List.all_eq_true.mp hst
  have hstaC := hstAll ca hcaMem
  have hstbC := hstAll cb hcbMem
  rw [Bool.and_eq_true] at hstaC hstbC
  have hsta : jsTrim (nameStr ca) = nameStr ca := beq_iff_eq.mp hstaC.1
  have hanem : nameStr ca ≠ "" := bne_iff_ne.mp hstaC.2
  have hstb : jsTrim (nameStr cb) = nameStr cb := beq_iff_eq.mp hstbC.1
  have hbnem : nameStr cb ≠ "" := bne_iff_ne.mp hstbC.2
  have hcm0 : (match charactersOf d with
      | [c1, c2] => !(fuzzyMatch (nameStr c2) (nameStr c1))
      | _ => true) = true := hcm
  rw [hchars] at hcm0
  have hcmF : fuzzyMatch (nameStr cb) (nameStr ca) = false := by
    have hcm1 : (!(fuzzyMatch (nameStr cb) (nameStr ca))) = true := hcm0
    simpa using hcm1
  have hnpAll := List.all_eq_true.mp hnp
  have hqa' : isProtoKey (nameStr ca) = false := by
    simpa using hnpAll ca hcaMem
  have hqb' : isProtoKey (nameStr cb) = false := by
    simpa using hnpAll cb hcbMem
  have hqa : nameStr ca ≠ "__proto__" := (isProtoKey_false hqa').1
  have hqb : nameStr cb ≠ "__proto__" := (isProtoKey_false hqb').1
  have hlineShape : ∀ l ∈ script1, (∃ f, props l = some f) ∧
      isProtoKey (speakerStr l) = false := by
    intro l hl
    obtain ⟨l0, hl0, hret⟩ := forall2_mem_right (mapM_ok_forall2 hsm) l hl
    obtain ⟨ps0, hps0⟩ := hasProps_exists (List.all_eq_true.mp hsc l0 hl0)
    obtain ⟨pl, hpl, hlk, hspeq⟩ := sanitizeLine_ok hps0 hret
    refine ⟨⟨pl, hpl⟩, ?_⟩
    rw [hspeq]
    simpa using List.all_eq_true.mp hso l0 hl0
  have hline : ∀ l ∈ applyScriptMap script1 (nameStr ca) (nameStr cb),
      ∃ pl s, props l = some pl ∧
        lookupEntry pl "speaker" = some (JSVal.str s) ∧
        speakerStr l = s ∧ (s = nameStr ca ∨ s = nameStr cb) := by
    intro l hl
    have hl' : l ∈ script1.map (applyMapLine (buildSpeakerMap
        (speakerOrder script1) (nameStr ca) (nameStr cb)) (nameStr ca)) := hl
    obtain ⟨l0, hl0, rfl⟩ := List.mem_map.mp hl'
    obtain ⟨⟨f0, hf0⟩, hpk0⟩ := hlineShape l0 hl0
    obtain ⟨pl, hpl, hplk⟩ := applyMapLine_shape
      (buildSpeakerMap_values (speakerOrder script1) (nameStr ca)
        (nameStr cb)) hf0 hpk0
    exact ⟨pl, _, hpl, hplk, rfl,
      applyMapLine_mem (buildSpeakerMap_values _ _ _) hf0 hpk0⟩
  exact normalizeData_fix r1' r2' hps hd hchars hscript hFa hFb hnne hvne
    hsta hstb hanem hbnem hcmF hqa hqb hline

/-- Witness for C8 (amended): the normalizer's output on `exSimple` is a
fixed point of a re-run with different random draws. -/
theorem normalizer_idempotent_amended_witness :
    normalizeData exSimpleOut 5 7 = .ok exSimpleOut :=
  normalizer_idempotent_amended exSimple exSimpleOut 0 0 rfl rfl rfl rfl
    rfl rfl rfl rfl 5 7

end VoicesFromHistory
